import Mathlib

/-!
# Verification of the cpp-helper prototype parser / implementation generator

Shallow embedding of the core text-processing functions of the cpp-helper
editor extension: the function-prototype recognizer (`parseFunctionPrototype`),
the implementation synthesizer (`generateImplementation`), the
duplicate-implementation detector (`functionAlreadyImplemented`) and the
template helpers (`Helpers.templateNames` and friends).

The source contains three variants of the parser utility file; they are
embedded in namespaces `Impl1`, `Impl2`, `Impl3` corresponding to
`src/unnamed/part_001`, `part_002` and `part_003` respectively.

Strings are modelled as `List Char`.  The JavaScript regular expressions used
by the source are transliterated literally into an `RE` syntax tree and run by
a backtracking matcher `mrun` that mirrors a JS regex engine's backtracking
order (leftmost match; greedy/lazy priority; last capture of a repeated group
wins).  `mrun` takes explicit fuel; `fuelFor` is proven sufficient for every
derivation of the relational semantics `Sem` (see `Sem.complete`).
-/

set_option maxHeartbeats 4000000
set_option maxRecDepth 100000

namespace CppHelper

/-- Strings of the embedded program are lists of characters. -/
abbrev Str := List Char

/-- Coerce a Lean string literal to the embedded string type. -/
def str (s : String) : Str := s.data

/-- JS `\s` (restricted to the ASCII whitespace characters that can occur in
the inputs considered here). -/
def wsChar (c : Char) : Bool :=
  c == ' ' || c == '\t' || c == '\n' || c == '\r' || c == '\x0b' || c == '\x0c'

/-- JS `\w`, i.e. `[A-Za-z0-9_]`. -/
def wordChar (c : Char) : Bool :=
  ('a' ≤ c && c ≤ 'z') || ('A' ≤ c && c ≤ 'Z') || ('0' ≤ c && c ≤ '9') || c == '_'

/-- JS `.` (matches anything but a line terminator). -/
def dotChar (c : Char) : Bool := !(c == '\n' || c == '\r')

/-- Syntax of the (small fragment of) JS regular expressions used by the
source: character classes, sequencing, prioritized alternation, greedy and
lazy star, greedy option, capturing groups, word boundary and anchors. -/
inductive RE : Type where
  | eps : RE
  | cls (p : Char → Bool) : RE
  | seq (r1 r2 : RE) : RE
  | alt (r1 r2 : RE) : RE
  | starG (r : RE) : RE
  | starL (r : RE) : RE
  | optG (r : RE) : RE
  | group (n : Nat) (r : RE) : RE
  | wb : RE
  | caret : RE
  | dollar : RE

/-- Recorded captures: (group index, start position, end position); the most
recent record for a group index is first, matching JS where the last
iteration of a repeated group wins. -/
abbrev Caps := List (Nat × Nat × Nat)

/-- Is the character at position `i` a word character (out of range counts as
no)? -/
def wordAt (s : Str) (i : Nat) : Bool :=
  match s[i]? with
  | some c => wordChar c
  | none => false

/-- JS `\b`: exactly one of the two neighbouring positions holds a word
character. -/
def isWB (s : Str) (i : Nat) : Bool :=
  (match i with
   | 0 => false
   | j+1 => wordAt s j) != wordAt s i

/-- Node count of a regular expression (used for the fuel bound). -/
def RE.size : RE → Nat
  | .eps => 1
  | .cls _ => 1
  | .wb => 1
  | .caret => 1
  | .dollar => 1
  | .seq a b => a.size + b.size + 1
  | .alt a b => a.size + b.size + 1
  | .starG a => a.size + 1
  | .starL a => a.size + 1
  | .optG a => a.size + 1
  | .group _ a => a.size + 1

/-- Backtracking matcher.  `mrun fuel r s i k` returns the list of
(end position, captures) pairs of all ways `r` can match `s` starting at
position `i`, in JS backtracking priority order (head = the match a JS engine
commits to).  A star does not iterate on an empty match, as in JS. -/
def mrun : Nat → RE → Str → Nat → Caps → List (Nat × Caps)
  | 0, _, _, _, _ => []
  | fuel+1, r, s, i, k =>
    match r with
    | .eps => [(i, k)]
    | .cls p =>
      match s[i]? with
      | some c => if p c then [(i+1, k)] else []
      | none => []
    | .seq r1 r2 =>
      (mrun fuel r1 s i k).flatMap fun jk => mrun fuel r2 s jk.1 jk.2
    | .alt r1 r2 => mrun fuel r1 s i k ++ mrun fuel r2 s i k
    | .starG r1 =>
      ((mrun fuel r1 s i k).flatMap fun jk =>
        if i < jk.1 then mrun fuel (.starG r1) s jk.1 jk.2 else []) ++ [(i, k)]
    | .starL r1 =>
      (i, k) :: ((mrun fuel r1 s i k).flatMap fun jk =>
        if i < jk.1 then mrun fuel (.starL r1) s jk.1 jk.2 else [])
    | .optG r1 => mrun fuel r1 s i k ++ [(i, k)]
    | .group n r1 =>
      (mrun fuel r1 s i k).map fun jk => (jk.1, (n, i, jk.1) :: jk.2)
    | .wb => if isWB s i then [(i, k)] else []
    | .caret => if i = 0 then [(i, k)] else []
    | .dollar => if i = s.length then [(i, k)] else []

/-- Fuel that is sufficient for any match of `r` inside `s`
(see `Sem.complete`). -/
def fuelFor (r : RE) (s : Str) : Nat := (r.size + 1) * (s.length + 2)

/-- JS `string.match(re)` / `re.exec(string)` (no global flag): the leftmost
match, as (start, end, captures). -/
def reFirst (r : RE) (s : Str) : Option (Nat × Nat × Caps) :=
  (List.range (s.length + 1)).findSome? fun i =>
    match mrun (fuelFor r s) r s i [] with
    | [] => none
    | jk :: _ => some (i, jk.1, jk.2)

/-- JS `re.test(string)`. -/
def reTest (r : RE) (s : Str) : Bool := (reFirst r s).isSome

/-- Extract the captured substring of group `n` (most recent record wins). -/
def capGet (s : Str) (caps : Caps) (n : Nat) : Option Str :=
  (caps.find? fun t => t.1 == n).map fun t => (s.drop t.2.1).take (t.2.2 - t.2.1)

/-- Literal string as a regular expression. -/
def lit (l : Str) : RE := l.foldr (fun c r => .seq (.cls fun x => x == c) r) .eps

/-- Single literal character. -/
def chr (c : Char) : RE := .cls fun x => x == c

/-- Right-nested sequencing of a list of regular expressions. -/
def cats (l : List RE) : RE := l.foldr .seq .eps

/-- Prioritized alternation of a list of regular expressions. -/
def altList : List RE → RE
  | [] => .cls fun _ => false
  | [r] => r
  | r :: rest => .alt r (altList rest)

/-- JS `+`: one occurrence followed by a greedy star. -/
def plus (r : RE) : RE := .seq r (.starG r)

/-- JS `string.includes(pat)`. -/
def subList (pat : Str) : Str → Bool
  | [] => pat.isEmpty
  | c :: t => pat.isPrefixOf (c :: t) || subList pat t

/-- JS `string.trim()` (ASCII whitespace). -/
def trimJS (l : Str) : Str :=
  ((l.dropWhile wsChar).reverse.dropWhile wsChar).reverse

/-- Does the string end with the given character? -/
def endsWith (c : Char) (l : Str) : Bool := l.getLast? == some c

/-- JS `string.split(sep)` for a single-character separator. -/
def splitOnChar (sep : Char) : Str → List Str
  | [] => [[]]
  | c :: t =>
    if c == sep then [] :: splitOnChar sep t
    else
      match splitOnChar sep t with
      | [] => [[c]]
      | h :: r => (c :: h) :: r

/-- JS `(line.match(/x/g) || []).length` for a single character `x`. -/
def countChar (c : Char) (l : Str) : Nat := l.count c

/-- JS `string.split(/\s+/)`: split on maximal whitespace runs; a leading or
trailing run contributes an empty piece. -/
def splitWsGo : Str → Str → Bool → List Str
  | [], cur, false => [cur.reverse]
  | [], _, true => [[]]
  | c :: rest, cur, false =>
    if wsChar c then cur.reverse :: splitWsGo rest [] true
    else splitWsGo rest (c :: cur) false
  | c :: rest, cur, true =>
    if wsChar c then splitWsGo rest cur true
    else splitWsGo rest [c] false

/-- JS `string.split(/\s+/)`. -/
def splitWsRuns (l : Str) : List Str := splitWsGo l [] false

/-- Largest `j ≤ i` such that `pat` occurs in `l` at position `j`. -/
def lastIdxGo (l pat : Str) : Nat → Option Nat
  | 0 => if pat.isPrefixOf l then some 0 else none
  | i+1 => if pat.isPrefixOf (l.drop (i+1)) then some (i+1) else lastIdxGo l pat i

/-- JS `string.lastIndexOf(pat)` (for nonempty `pat`), as an `Option`. -/
def lastIndexOfStr (l pat : Str) : Option Nat := lastIdxGo l pat l.length

/-! ## Transliterated regular expressions -/

/-- `\s` as a node. -/
def wsRE : RE := .cls wsChar

/-- `(?:<[^>]*>)?`. -/
def angleOpt : RE := .optG (cats [chr '<', .starG (.cls fun c => !(c == '>')), chr '>'])

/-- `(?:const|noexcept|override|final|\s)`. -/
def postKw : RE :=
  altList [lit (str "const"), lit (str "noexcept"), lit (str "override"),
    lit (str "final"), wsRE]

/-- The prototype-matching regex of `part_001` (`parseFunctionPrototype`):
`(?:(inline|static|virtual|explicit|const)\s+)*([\w:]+(?:<[^>]*>)?)\s+([\w~:<>]+)\s*\((.*?)\)(\s*(?:const|noexcept|override|final|\s)*)?;`. -/
def functionRegex1 : RE := cats [
  .starG (.seq (.group 1 (altList [lit (str "inline"), lit (str "static"),
    lit (str "virtual"), lit (str "explicit"), lit (str "const")])) (plus wsRE)),
  .group 2 (.seq (plus (.cls fun c => wordChar c || c == ':')) angleOpt),
  plus wsRE,
  .group 3 (plus (.cls fun c => wordChar c || c == '~' || c == ':' || c == '<' || c == '>')),
  .starG wsRE,
  chr '(',
  .group 4 (.starL (.cls dotChar)),
  chr ')',
  .optG (.group 5 (.seq (.starG wsRE) (.starG postKw))),
  chr ';' ]

/-- The prototype-matching regex of `part_002` and `part_003`:
`(?:(inline|static|virtual|explicit)\s+)?(?:([\w:]+(?:<[^>]*>)?)\s+)?([\w~:<>]+)\s*\((.*?)\)(\s*(?:const|noexcept|override|final|\s)*)\s*;$`. -/
def functionRegex2 : RE := cats [
  .optG (.seq (.group 1 (altList [lit (str "inline"), lit (str "static"),
    lit (str "virtual"), lit (str "explicit")])) (plus wsRE)),
  .optG (.seq (.group 2 (.seq (plus (.cls fun c => wordChar c || c == ':')) angleOpt)) (plus wsRE)),
  .group 3 (plus (.cls fun c => wordChar c || c == '~' || c == ':' || c == '<' || c == '>')),
  .starG wsRE,
  chr '(',
  .group 4 (.starL (.cls dotChar)),
  chr ')',
  .group 5 (.seq (.starG wsRE) (.starG postKw)),
  .starG wsRE,
  chr ';',
  .dollar ]

/-- `\b(class|struct)\s+(\w+)(?:<[^>]*>)?` (enclosing-class scan of
`extractClassNameFromContext` / `extractTemplateInfo`). -/
def classMatchRE : RE := cats [
  .wb,
  .group 1 (.alt (lit (str "class")) (lit (str "struct"))),
  plus wsRE,
  .group 2 (plus (.cls wordChar)),
  angleOpt ]

/-- `template\s*<([^>]*)>` (template parameter capture). -/
def tmplParamRE : RE := cats [
  lit (str "template"), .starG wsRE, chr '<',
  .group 1 (.starG (.cls fun c => !(c == '>'))), chr '>' ]

/-- `^(([\w_][\w\d_]*\s+)+)([\w_][\w\d_]*)$` (bare template-parameter name). -/
def tmplNameRE : RE :=
  cats [
    .caret,
    .group 1 (plus (.group 2 (cats [
      .cls (fun c => wordChar c || c == '_'),
      .starG (.cls fun c => wordChar c || ('0' ≤ c && c ≤ '9') || c == '_'),
      plus wsRE ]))),
    .group 3 (.seq (.cls fun c => wordChar c || c == '_')
      (.starG (.cls fun c => wordChar c || ('0' ≤ c && c ≤ '9') || c == '_'))),
    .dollar ]

/-- First regex of `Helpers.removeArgumentDefault`:
`([^=^,]+)(\s+=\s*[^\,^>]*)` (global replace by the first group). -/
def rmDef1RE : RE := cats [
  .group 1 (plus (.cls fun c => !(c == '=' || c == '^' || c == ','))),
  .group 2 (cats [plus wsRE, chr '=', .starG wsRE,
    .starG (.cls fun c => !(c == ',' || c == '^' || c == '>'))]) ]

/-- Second regex of `Helpers.removeArgumentDefault`:
`([^=^,]+)(=\s*[^\,]*)` (global replace by the first group). -/
def rmDef2RE : RE := cats [
  .group 1 (plus (.cls fun c => !(c == '=' || c == '^' || c == ','))),
  .group 2 (cats [chr '=', .starG wsRE, .starG (.cls fun c => !(c == ','))]) ]

/-- `^\s*template\s*<` (head-stripping in `Helpers.templateParameters`). -/
def tmplHeadRE : RE :=
  cats [.caret, .starG wsRE, lit (str "template"), .starG wsRE, chr '<']

/-- `>$` (tail-stripping in `Helpers.templateParameters`). -/
def gtEndRE : RE := .seq (chr '>') .dollar

/-- JS `s.replace(re, '$1')` with the global flag: repeatedly replace each
match by its first capture group, resuming after the replaced stretch.  The
regexes used here always consume at least one character; if a match were
empty the scan still advances one character, as a JS engine does. -/
def replaceG1Go (re : RE) : Nat → Str → Str
  | 0, s => s
  | fuel+1, s =>
    match reFirst re s with
    | none => s
    | some (st, en, caps) =>
      let g1 := (capGet s caps 1).getD []
      s.take st ++ g1 ++
        (if st < en then replaceG1Go re fuel (s.drop en)
         else
           match s.drop en with
           | [] => []
           | c :: t => c :: replaceG1Go re fuel t)

/-- JS `s.replace(re, '$1')` with the global flag. -/
def replaceG1 (re : RE) (s : Str) : Str := replaceG1Go re (s.length + 1) s

/-- JS `s.replace(re, '')` without the global flag: delete the first match. -/
def replaceFirstEmpty (re : RE) (s : Str) : Str :=
  match reFirst re s with
  | none => s
  | some (st, en, _) => s.take st ++ s.drop en

/-! ## `Helpers` (identical in `part_001` and `part_003`) -/

namespace Helpers

/-- `Helpers.removeArgumentDefault`: remove default values from arguments. -/
def removeArgumentDefault (args : Str) : Str :=
  trimJS (replaceG1 rmDef2RE (replaceG1 rmDef1RE args))

/-- `Helpers.templateParameters`: the comma-separated entries of a
`template<...>` header, each trimmed. -/
def templateParameters (template : Str) : List Str :=
  let t1 := replaceFirstEmpty tmplHeadRE template
  let t2 := replaceFirstEmpty gtEndRE t1
  if t2.length = 0 then []
  else (splitOnChar ',' t2).map trimJS

/-- `Helpers.templateNames`: bare template parameter names (defaults removed,
leading type keywords stripped). -/
def templateNames (template : Str) : List Str :=
  (templateParameters (removeArgumentDefault template)).map fun templ =>
    match reFirst tmplNameRE templ with
    | some (_, _, caps) => (capGet templ caps 3).getD templ
    | none => templ

end Helpers

/-- The member-function split of `parseFunctionPrototype` (`part_001` lines
201-212 and `part_002` lines 46-54): split the matched name at the last
occurrence of `::` when that occurrence is at a positive index; otherwise the
name is kept whole and the class name falls back to the given value (the
context scan in `part_001`, nothing in `part_002`). -/
def splitNameWithClass (nameWithClass : Str) (fallback : Option Str) :
    Option Str × Str :=
  match lastIndexOfStr nameWithClass (str "::") with
  | some idx =>
    if 0 < idx then (some (nameWithClass.take idx), nameWithClass.drop (idx + 2))
    else (fallback, nameWithClass)
  | none => (fallback, nameWithClass)

/-! ## The document model

A document is a list of lines (none containing a newline); a position is a
line index and a character index, as in the editor API. -/

/-- A document: the list of its lines. -/
abbrev Doc := List Str

/-- `document.getText(new Range(new Position(startLine, 0), position))`:
the text from the start of `startLine` up to (line `pl`, character `pc`),
lines joined by a newline. -/
def getTextUpTo (doc : Doc) (startLine pl pc : Nat) : Str :=
  List.intercalate (str "\n")
    (((doc.drop startLine).take (pl - startLine)) ++ [(doc.getD pl []).take pc])

/-! ## `Impl1`: the parser utility of `src/unnamed/part_001` -/

namespace Impl1

/-- The `FunctionPrototype` interface of `part_001`. -/
structure FunctionPrototype where
  fullSignature : Str
  returnType : Str
  name : Str
  parameters : Str
  qualifiers : Str
  preQualifiers : List Str
  isTemplated : Bool
  postQualifiers : Str
  className : Option Str
  classTemplate : Option Str
  templateParams : Option Str
  templateArgs : Option Str
  isStatic : Bool
  isInline : Bool
deriving Repr, DecidableEq

/-- Result record of `extractTemplateInfo`. -/
structure TemplateInfo where
  template : Option Str
  templateParams : Option Str
  templateArgs : Option Str
deriving Repr, DecidableEq

/-- Inner loop of `extractClassNameFromContext`: from line `j` downward,
accumulate `closeBraces - openBraces` onto the running brace counter and
return the first line index where the counter reaches exactly zero. -/
def braceScanGo (lines : List Str) : Nat → Int → Option Nat
  | j, counter =>
    let line := lines.getD j []
    let cnt := counter + (countChar '}' line : Int) - (countChar '{' line : Int)
    if cnt = 0 then some j
    else
      match j with
      | 0 => none
      | j'+1 => braceScanGo lines j' cnt

/-- Outer loop of `extractClassNameFromContext`: walk the lines backward from
index `i`; a line matching the class regex returns its name capture; a line
containing a complete scope end (a `};` occurrence) triggers the inner brace
scan, and on success the walk resumes just above the matching opening line.
`fuel` only ensures termination; the entry point passes `lines.length`, which
is sufficient since the index strictly decreases. -/
def classScanGo (lines : List Str) : Nat → Nat → Option Str
  | 0, _ => none
  | fuel+1, i =>
    let line := lines.getD i []
    match reFirst classMatchRE line with
    | some (_, _, caps) => some ((capGet line caps 2).getD [])
    | none =>
      let i2 :=
        if subList (str "\x7d") line then
          if subList (str "\x7d;") line then
            match i with
            | 0 => i
            | i'+1 =>
              match braceScanGo lines i' 1 with
              | some j => j
              | none => i
          else i
        else i
      match i2 with
      | 0 => none
      | i3+1 => classScanGo lines fuel i3

/-- `extractClassNameFromContext`: look up to 100 lines back for an enclosing
`class`/`struct` definition. -/
def extractClassNameFromContext (doc : Doc) (pl pc : Nat) : Option Str :=
  let startLine := pl - 100
  let lines := splitOnChar '\n' (getTextUpTo doc startLine pl pc)
  classScanGo lines lines.length (lines.length - 1)

/-- Loop of `extractTemplateInfo`: walk backward tracking a brace balance;
once a `class`/`struct` line is seen at non-positive balance, the next line
starting with `template` supplies the template information. -/
def tmplScanGo (lines : List Str) : Nat → Nat → Int → Bool → TemplateInfo
  | 0, _, _, _ => ⟨none, none, none⟩
  | fuel+1, i, bal, classFound =>
    let line := trimJS (lines.getD i [])
    let bal2 := bal + (countChar '}' line : Int) - (countChar '{' line : Int)
    let step : Bool → TemplateInfo := fun cf =>
      match i with
      | 0 => ⟨none, none, none⟩
      | i'+1 => tmplScanGo lines fuel i' bal2 cf
    if 0 < bal2 then step classFound
    else if !classFound && (subList (str "class") line || subList (str "struct") line) then
      match reFirst classMatchRE line with
      | some _ => step true
      | none => step classFound
    else if classFound && (str "template").isPrefixOf line then
      let templateLine := trimJS line
      match reFirst tmplParamRE templateLine with
      | some (_, _, caps) =>
        match capGet templateLine caps 1 with
        | some g1 =>
          if g1.length ≠ 0 then
            let names := Helpers.templateNames templateLine
            ⟨some templateLine, some (trimJS g1),
              if 0 < names.length then some (List.intercalate (str ", ") names) else none⟩
          else ⟨some templateLine, none, none⟩
        | none => ⟨some templateLine, none, none⟩
      | none => ⟨some templateLine, none, none⟩
    else step classFound

/-- `extractTemplateInfo`: look up to 100 lines back for the template header
of the enclosing class. -/
def extractTemplateInfo (doc : Doc) (pl pc : Nat) : TemplateInfo :=
  let startLine := pl - 100
  let lines := splitOnChar '\n' (getTextUpTo doc startLine pl pc)
  tmplScanGo lines lines.length (lines.length - 1) 0 false

/-- `parseFunctionPrototype` of `part_001`. -/
def parseFunctionPrototype (doc : Doc) (pl pc : Nat) : Option FunctionPrototype :=
  let line := trimJS (doc.getD pl [])
  if !endsWith ';' line then none
  else
    match reFirst functionRegex1 line with
    | none => none
    | some (_, _, caps) =>
      let preQualifiers :=
        match capGet line caps 1 with
        | some m => splitWsRuns m
        | none => []
      let returnType := (capGet line caps 2).getD []
      let nameWithClass := (capGet line caps 3).getD []
      let parameters := (capGet line caps 4).getD []
      let postQualifiers :=
        match capGet line caps 5 with
        | some m => trimJS m
        | none => []
      let cn := splitNameWithClass nameWithClass (extractClassNameFromContext doc pl pc)
      let isTemplated := subList (str "<") cn.2 || subList (str "<") returnType
      let isStatic := (preQualifiers.contains (str "static") : Bool)
      let isInline := (preQualifiers.contains (str "inline") : Bool)
      let templateInfo := extractTemplateInfo doc pl pc
      some {
        fullSignature := line
        returnType := returnType
        name := cn.2
        parameters := parameters
        preQualifiers := preQualifiers
        qualifiers := postQualifiers
        postQualifiers := postQualifiers
        isTemplated := isTemplated
        className := cn.1
        classTemplate := templateInfo.template
        templateParams := templateInfo.templateParams
        templateArgs := templateInfo.templateArgs
        isStatic := isStatic
        isInline := isInline }

/-- Template-header part of `generateImplementation` of `part_001`: emitted
when `templateParams` is truthy (JS truthiness of a string is nonemptiness).
-/
def tmplPart (prototype : FunctionPrototype) : Str :=
  match prototype.templateParams with
  | some tp => if tp.isEmpty then [] else str "template<" ++ tp ++ str ">\n"
  | none => []

/-- Pre-qualifier part of `generateImplementation` of `part_001`: the
specifier words joined by spaces, when the list is nonempty. -/
def preqPart (prototype : FunctionPrototype) : Str :=
  if 0 < prototype.preQualifiers.length then
    List.intercalate (str " ") prototype.preQualifiers ++ str " "
  else []

/-- Signature line (with trailing `\n\x7b\n`) of `generateImplementation`
of `part_001`: the scope prefix is `Class<Args>::` when `className` and
`templateArgs` are both truthy, `Class::` when only `className` is truthy,
and absent otherwise. -/
def sigPart (prototype : FunctionPrototype) : Str :=
  let freeSig : Str :=
    prototype.returnType ++ str " " ++ prototype.name ++ str "(" ++
      prototype.parameters ++ str ") " ++ prototype.postQualifiers ++ str "\n\x7b\n"
  match prototype.className with
  | some c =>
    if c.isEmpty then freeSig
    else
      match prototype.templateArgs with
      | some ta =>
        if ta.isEmpty then
          prototype.returnType ++ str " " ++ c ++ str "::" ++ prototype.name ++
            str "(" ++ prototype.parameters ++ str ") " ++ prototype.postQualifiers ++
            str "\n\x7b\n"
        else
          prototype.returnType ++ str " " ++ c ++ str "<" ++ ta ++ str ">::" ++
            prototype.name ++ str "(" ++ prototype.parameters ++ str ") " ++
            prototype.postQualifiers ++ str "\n\x7b\n"
      | none =>
        prototype.returnType ++ str " " ++ c ++ str "::" ++ prototype.name ++
          str "(" ++ prototype.parameters ++ str ") " ++ prototype.postQualifiers ++
          str "\n\x7b\n"
  | none => freeSig

/-- `generateImplementation` of `part_001` (no location flag): template
header, joined `preQualifiers`, the signature, and a TODO-only body; the
parts mirror the source's incremental `+=` construction. -/
def generateImplementation (prototype : FunctionPrototype) : Str :=
  tmplPart prototype ++ preqPart prototype ++ sigPart prototype ++
    str "    // TODO: Implement\n" ++ str "\x7d\n"

/-- Search pattern of `functionAlreadyImplemented` for non-member functions:
`\bNAME\s*\([^)]*\)(?:\s*[\w\s]*)?\s*\x7b` (the name is spliced in; the
embedding assumes it contains no regex metacharacters, which the theorems
using it enforce through word-character hypotheses). -/
def freeImplRE (functionName : Str) : RE := cats [
  .wb, lit functionName, .starG wsRE, chr '(',
  .starG (.cls fun c => !(c == ')')), chr ')',
  .optG (.seq (.starG wsRE) (.starG (.cls fun c => wordChar c || wsChar c))),
  .starG wsRE, chr '\x7b' ]

/-- Search pattern of `functionAlreadyImplemented` for member functions:
`\bCLASS(?:<[^>]*>)?::NAME\s*\([^)]*\)(?:\s*[\w\s]*)?\s*\x7b`. -/
def memberImplRE (className functionName : Str) : RE := cats [
  .wb, lit className, angleOpt, lit (str "::"), lit functionName,
  .starG wsRE, chr '(', .starG (.cls fun c => !(c == ')')), chr ')',
  .optG (.seq (.starG wsRE) (.starG (.cls fun c => wordChar c || wsChar c))),
  .starG wsRE, chr '\x7b' ]

/-- `functionAlreadyImplemented` of `part_001` (a falsy — absent or empty —
class name selects the non-member pattern). -/
def functionAlreadyImplemented (functionName : Str) (className : Option Str)
    (text : Str) : Bool :=
  match className with
  | none => reTest (freeImplRE functionName) text
  | some c =>
    if c.isEmpty then reTest (freeImplRE functionName) text
    else reTest (memberImplRE c functionName) text

end Impl1

/-! ## `Impl2`: the parser utility of `src/unnamed/part_002` -/

namespace Impl2

/-- The `FunctionPrototype` interface of `part_002`. -/
structure FunctionPrototype where
  fullSignature : Str
  returnType : Str
  name : Str
  parameters : Str
  qualifiers : Str
  isTemplated : Bool
  className : Option Str
  isStatic : Bool
  isInline : Bool
deriving Repr, DecidableEq

/-- `parseFunctionPrototype` of `part_002`: the raw line is matched against
the end-anchored regex; there is no backward context scan. -/
def parseFunctionPrototype (doc : Doc) (pl _pc : Nat) : Option FunctionPrototype :=
  let line := doc.getD pl []
  match reFirst functionRegex2 line with
  | none => none
  | some (_, _, caps) =>
    let specifier := (capGet line caps 1).getD []
    let returnType := (capGet line caps 2).getD []
    let nameWithClass := (capGet line caps 3).getD []
    let parameters := (capGet line caps 4).getD []
    let qualifiers :=
      match capGet line caps 5 with
      | some m => trimJS m
      | none => []
    let cn := splitNameWithClass nameWithClass none
    let isTemplated := subList (str "<") cn.2 || subList (str "<") returnType
    let isStatic := subList (str "static") specifier
    let isInline := subList (str "inline") specifier
    some {
      fullSignature := trimJS line
      returnType := returnType
      name := cn.2
      parameters := parameters
      qualifiers := qualifiers
      isTemplated := isTemplated
      className := cn.1
      isStatic := isStatic
      isInline := isInline }

/-- Truthiness of the optional class name (JS: a nonempty string). -/
def classTruthy (prototype : FunctionPrototype) : Bool :=
  match prototype.className with
  | some c => !c.isEmpty
  | none => false

/-- Signature line (without the trailing newline and brace) of
`generateImplementation` of `part_002`: the class prefix is emitted only
when `inSourceFile` holds and `className` is truthy. -/
def sigLine (prototype : FunctionPrototype) (inSourceFile : Bool) : Str :=
  if inSourceFile && classTruthy prototype then
    prototype.returnType ++ str " " ++ (prototype.className.getD []) ++ str "::" ++
      prototype.name ++ str "(" ++ prototype.parameters ++ str ")" ++
      prototype.qualifiers
  else
    prototype.returnType ++ str " " ++ prototype.name ++ str "(" ++
      prototype.parameters ++ str ")" ++ prototype.qualifiers

/-- Return-statement part of `generateImplementation` of `part_002`:
emitted whenever `returnType` is truthy and not the literal `void`. -/
def retPart (prototype : FunctionPrototype) : Str :=
  if !prototype.returnType.isEmpty && prototype.returnType ≠ str "void" then
    str "    return \x7b\x7d;\n"
  else []

/-- `generateImplementation` of `part_002`: signature, TODO comment, an
optional default return statement, closing brace. -/
def generateImplementation (prototype : FunctionPrototype) (inSourceFile : Bool) : Str :=
  sigLine prototype inSourceFile ++ str "\n\x7b\n" ++
    str "    // TODO: Implement\n" ++ retPart prototype ++ str "\x7d\n"

/-- Search pattern of `functionAlreadyImplemented` of `part_002`:
`FULLNAME\s*\([^)]*\)(?:\s*[\w\s]*)?\s*\x7b` (no word boundary). -/
def implRE (fullName : Str) : RE := cats [
  lit fullName, .starG wsRE, chr '(', .starG (.cls fun c => !(c == ')')), chr ')',
  .optG (.seq (.starG wsRE) (.starG (.cls fun c => wordChar c || wsChar c))),
  .starG wsRE, chr '\x7b' ]

/-- `functionAlreadyImplemented` of `part_002`. -/
def functionAlreadyImplemented (functionName : Str) (className : Option Str)
    (text : Str) : Bool :=
  let fullName :=
    match className with
    | some c => if c.isEmpty then functionName else c ++ str "::" ++ functionName
    | none => functionName
  reTest (implRE fullName) text

end Impl2

/-! ## `Impl3`: the parser utility of `src/unnamed/part_003`

Only its `generateImplementation` is needed by the claims; its
`FunctionPrototype` interface adds the template fields of `part_001` to the
interface of `part_002`. -/

namespace Impl3

/-- The `FunctionPrototype` interface of `part_003`. -/
structure FunctionPrototype where
  fullSignature : Str
  returnType : Str
  name : Str
  parameters : Str
  qualifiers : Str
  isTemplated : Bool
  className : Option Str
  classTemplate : Option Str
  templateParams : Option Str
  templateArgs : Option Str
  isStatic : Bool
  isInline : Bool
deriving Repr, DecidableEq

/-- Truthiness of the optional class name (JS: a nonempty string). -/
def classTruthy (prototype : FunctionPrototype) : Bool :=
  match prototype.className with
  | some c => !c.isEmpty
  | none => false

/-- Truthiness of the optional template parameter list. -/
def tmplTruthy (prototype : FunctionPrototype) : Bool :=
  match prototype.templateParams with
  | some tp => !tp.isEmpty
  | none => false

/-- Template-header part of `generateImplementation` of `part_003`: emitted
when `className` and `templateParams` are both truthy. -/
def tmplPart (prototype : FunctionPrototype) : Str :=
  if classTruthy prototype && tmplTruthy prototype then
    str "template<" ++ (prototype.templateParams.getD []) ++ str ">\n"
  else []

/-- Signature part of `generateImplementation` of `part_003`: the scope
prefix is `Class<Args>::` when `templateArgs` is truthy and plain `Class::`
otherwise, whenever `className` is truthy; the flag plays no role. -/
def sigPart (prototype : FunctionPrototype) : Str :=
  if classTruthy prototype then
    match prototype.templateArgs with
    | some ta =>
      if ta.isEmpty then
        prototype.returnType ++ str " " ++ (prototype.className.getD []) ++ str "::" ++
          prototype.name ++ str "(" ++ prototype.parameters ++ str ")" ++
          prototype.qualifiers ++ str "\n\x7b\n"
      else
        prototype.returnType ++ str " " ++ (prototype.className.getD []) ++ str "<" ++
          ta ++ str ">::" ++ prototype.name ++ str "(" ++ prototype.parameters ++
          str ")" ++ prototype.qualifiers ++ str "\n\x7b\n"
    | none =>
      prototype.returnType ++ str " " ++ (prototype.className.getD []) ++ str "::" ++
        prototype.name ++ str "(" ++ prototype.parameters ++ str ")" ++
        prototype.qualifiers ++ str "\n\x7b\n"
  else
    prototype.returnType ++ str " " ++ prototype.name ++ str "(" ++
      prototype.parameters ++ str ")" ++ prototype.qualifiers ++ str "\n\x7b\n"

/-- `generateImplementation` of `part_003` (takes the `inSourceFile` flag but
never consults it): template header, signature, TODO-only body, no return
statement. -/
def generateImplementation (prototype : FunctionPrototype) (_inSourceFile : Bool) : Str :=
  tmplPart prototype ++ sigPart prototype ++ str "    // TODO: Implement\n" ++
    str "\x7d\n"

end Impl3

/-! ## Relational semantics of the matcher

`Sem r s i j` expresses that `r` can match the slice of `s` from position `i`
to position `j`.  It is proved sound and complete for `mrun` (ignoring
captures), which lets the theorems below reason about `reTest` and `reFirst`
symbolically. -/

/-- A possible match of a regular expression inside a string, relating start
and end positions. -/
inductive Sem : RE → Str → Nat → Nat → Prop where
  | eps {s i} : Sem .eps s i i
  | cls {p : Char → Bool} {s : Str} {i c} (hc : s[i]? = some c) (hp : p c = true) :
      Sem (.cls p) s i (i+1)
  | seq {r1 r2 s i j k} (h1 : Sem r1 s i j) (h2 : Sem r2 s j k) :
      Sem (.seq r1 r2) s i k
  | altL {r1 r2 s i j} (h : Sem r1 s i j) : Sem (.alt r1 r2) s i j
  | altR {r1 r2 s i j} (h : Sem r2 s i j) : Sem (.alt r1 r2) s i j
  | starNil {r s i} : Sem (.starG r) s i i
  | starCons {r s i j k} (h1 : Sem r s i j) (hlt : i < j)
      (h2 : Sem (.starG r) s j k) : Sem (.starG r) s i k
  | starLNil {r s i} : Sem (.starL r) s i i
  | starLCons {r s i j k} (h1 : Sem r s i j) (hlt : i < j)
      (h2 : Sem (.starL r) s j k) : Sem (.starL r) s i k
  | optSome {r s i j} (h : Sem r s i j) : Sem (.optG r) s i j
  | optNone {r s i} : Sem (.optG r) s i i
  | group {n r s i j} (h : Sem r s i j) : Sem (.group n r) s i j
  | wb {s i} (h : isWB s i = true) : Sem .wb s i i
  | caret {s : Str} : Sem .caret s 0 0
  | dollar {s : Str} : Sem .dollar s s.length s.length

/-- A match never moves the position backwards. -/
theorem Sem.le {r s i j} (h : Sem r s i j) : i ≤ j := by
  induction h with
  | eps => exact Nat.le_refl _
  | cls _ _ => exact Nat.le_succ _
  | seq _ _ ih1 ih2 => exact Nat.le_trans ih1 ih2
  | altL _ ih => exact ih
  | altR _ ih => exact ih
  | starNil => exact Nat.le_refl _
  | starCons _ _ _ ih1 ih2 => exact Nat.le_trans ih1 ih2
  | starLNil => exact Nat.le_refl _
  | starLCons _ _ _ ih1 ih2 => exact Nat.le_trans ih1 ih2
  | optSome _ ih => exact ih
  | optNone => exact Nat.le_refl _
  | group _ ih => exact ih
  | wb _ => exact Nat.le_refl _
  | caret => exact Nat.le_refl _
  | dollar => exact Nat.le_refl _

/-- A match starting inside the string ends inside the string. -/
theorem Sem.high {r s i j} (h : Sem r s i j) (hi : i ≤ s.length) : j ≤ s.length := by
  induction h with
  | eps => exact hi
  | @cls p s2 i2 c hc hp =>
    have hlen : i2 < s2.length := by
      by_contra hn
      rw [List.getElem?_eq_none (by omega)] at hc
      exact Option.noConfusion hc
    omega
  | seq _ _ ih1 ih2 => exact ih2 (ih1 hi)
  | altL _ ih => exact ih hi
  | altR _ ih => exact ih hi
  | starNil => exact hi
  | starCons _ _ _ ih1 ih2 => exact ih2 (ih1 hi)
  | starLNil => exact hi
  | starLCons _ _ _ ih1 ih2 => exact ih2 (ih1 hi)
  | optSome _ ih => exact ih hi
  | optNone => exact hi
  | group _ ih => exact ih hi
  | wb _ => exact hi
  | caret => exact Nat.zero_le _
  | dollar => exact Nat.le_refl _

/-- More fuel preserves every result of the matcher. -/
theorem mrun_mono {fuel fuel' : Nat} (hf : fuel ≤ fuel') :
    ∀ {r : RE} {s : Str} {i : Nat} {k : Caps} {x : Nat × Caps},
      x ∈ mrun fuel r s i k → x ∈ mrun fuel' r s i k := by
  induction fuel generalizing fuel' with
  | zero => intro r s i k x hx; simp [mrun] at hx
  | succ fuel ih =>
    intro r s i k x hx
    obtain ⟨fuel'', rfl⟩ : ∃ m, fuel' = m + 1 :=
      ⟨fuel' - 1, by omega⟩
    have hff : fuel ≤ fuel'' := by omega
    cases r with
    | eps => simpa [mrun] using hx
    | cls p =>
      simp only [mrun] at hx ⊢
      exact hx
    | seq r1 r2 =>
      simp only [mrun, List.mem_flatMap] at hx ⊢
      obtain ⟨jk, hjk, hx2⟩ := hx
      exact ⟨jk, ih hff hjk, ih hff hx2⟩
    | alt r1 r2 =>
      simp only [mrun, List.mem_append] at hx ⊢
      rcases hx with hx | hx
      · exact Or.inl (ih hff hx)
      · exact Or.inr (ih hff hx)
    | starG r1 =>
      simp only [mrun, List.mem_append, List.mem_flatMap] at hx ⊢
      rcases hx with ⟨jk, hjk, hx2⟩ | hx
      · left
        by_cases hlt : i < jk.1
        · rw [if_pos hlt] at hx2
          exact ⟨jk, ih hff hjk, by rw [if_pos hlt]; exact ih hff hx2⟩
        · rw [if_neg hlt] at hx2; simp at hx2
      · exact Or.inr hx
    | starL r1 =>
      simp only [mrun, List.mem_cons, List.mem_flatMap] at hx ⊢
      rcases hx with hx | ⟨jk, hjk, hx2⟩
      · exact Or.inl hx
      · right
        by_cases hlt : i < jk.1
        · rw [if_pos hlt] at hx2
          exact ⟨jk, ih hff hjk, by rw [if_pos hlt]; exact ih hff hx2⟩
        · rw [if_neg hlt] at hx2; simp at hx2
    | optG r1 =>
      simp only [mrun, List.mem_append] at hx ⊢
      rcases hx with hx | hx
      · exact Or.inl (ih hff hx)
      · exact Or.inr hx
    | group n r1 =>
      simp only [mrun, List.mem_map] at hx ⊢
      obtain ⟨jk, hjk, rfl⟩ := hx
      exact ⟨jk, ih hff hjk, rfl⟩
    | wb => simpa [mrun] using hx
    | caret => simpa [mrun] using hx
    | dollar => simpa [mrun] using hx

/-- Soundness: every result produced by the matcher is a semantic match. -/
theorem mrun_sound {fuel : Nat} :
    ∀ {r : RE} {s : Str} {i : Nat} {k : Caps} {x : Nat × Caps},
      x ∈ mrun fuel r s i k → Sem r s i x.1 := by
  induction fuel with
  | zero => intro r s i k x hx; simp [mrun] at hx
  | succ fuel ih =>
    intro r s i k x hx
    cases r with
    | eps =>
      simp only [mrun, List.mem_singleton] at hx
      subst hx; exact .eps
    | cls p =>
      simp only [mrun] at hx
      rcases hg : s[i]? with _ | c
      · rw [hg] at hx; simp at hx
      · rw [hg] at hx
        dsimp only at hx
        rcases hp : p c
        · rw [hp] at hx; simp at hx
        · rw [hp] at hx
          simp only [if_true, List.mem_singleton] at hx
          subst hx
          exact .cls hg hp
    | seq r1 r2 =>
      simp only [mrun, List.mem_flatMap] at hx
      obtain ⟨jk, hjk, hx2⟩ := hx
      exact .seq (ih hjk) (ih hx2)
    | alt r1 r2 =>
      simp only [mrun, List.mem_append] at hx
      rcases hx with hx | hx
      · exact .altL (ih hx)
      · exact .altR (ih hx)
    | starG r1 =>
      simp only [mrun, List.mem_append, List.mem_flatMap, List.mem_singleton] at hx
      rcases hx with ⟨jk, hjk, hx2⟩ | hx
      · by_cases hlt : i < jk.1
        · rw [if_pos hlt] at hx2
          exact .starCons (ih hjk) hlt (ih hx2)
        · rw [if_neg hlt] at hx2; simp at hx2
      · subst hx; exact .starNil
    | starL r1 =>
      simp only [mrun, List.mem_cons, List.mem_flatMap] at hx
      rcases hx with hx | ⟨jk, hjk, hx2⟩
      · subst hx; exact .starLNil
      · by_cases hlt : i < jk.1
        · rw [if_pos hlt] at hx2
          exact .starLCons (ih hjk) hlt (ih hx2)
        · rw [if_neg hlt] at hx2; simp at hx2
    | optG r1 =>
      simp only [mrun, List.mem_append, List.mem_singleton] at hx
      rcases hx with hx | hx
      · exact .optSome (ih hx)
      · subst hx; exact .optNone
    | group n r1 =>
      simp only [mrun, List.mem_map] at hx
      obtain ⟨jk, hjk, rfl⟩ := hx
      exact .group (by simpa using ih hjk)
    | wb =>
      simp only [mrun] at hx
      rcases hw : isWB s i
      · rw [hw] at hx; simp at hx
      · rw [hw] at hx
        simp only [if_true, List.mem_singleton] at hx
        subst hx; exact .wb hw
    | caret =>
      simp only [mrun] at hx
      split at hx
      · simp only [List.mem_singleton] at hx
        subst hx
        have : i = 0 := by assumption
        subst this; exact .caret
      · simp at hx
    | dollar =>
      simp only [mrun] at hx
      split at hx
      · simp only [List.mem_singleton] at hx
        subst hx
        have : i = s.length := by assumption
        subst this; exact .dollar
      · simp at hx

/-- The fuel expression is always positive when the start is in range. -/
theorem fuel_pos (r : RE) (s : Str) (i : Nat) (hi : i ≤ s.length) :
    0 < (r.size + 1) * (s.length + 1 - i) :=
  Nat.mul_pos (by omega) (by omega)

/-- A positive number is a successor. -/
theorem exists_succ_of_pos {n : Nat} (h : 0 < n) : ∃ m, n = m + 1 :=
  ⟨n - 1, by omega⟩

/-- Completeness: every semantic match is found by the matcher with fuel
`(r.size + 1) * (s.length + 1 - i)`. -/
theorem Sem.complete {r : RE} {s : Str} {i j : Nat} (h : Sem r s i j) :
    i ≤ s.length → ∀ k0 : Caps,
      ∃ k, (j, k) ∈ mrun ((r.size + 1) * (s.length + 1 - i)) r s i k0 := by
  induction h with
  | @eps s2 i2 =>
    intro hi k0
    obtain ⟨m, hm⟩ := exists_succ_of_pos (fuel_pos .eps s2 i2 hi)
    exact ⟨k0, by rw [hm]; simp [mrun]⟩
  | @cls p s2 i2 c hc hp =>
    intro hi k0
    obtain ⟨m, hm⟩ := exists_succ_of_pos (fuel_pos (.cls p) s2 i2 hi)
    exact ⟨k0, by rw [hm]; simp [mrun, hc, hp]⟩
  | @seq r1 r2 s2 i2 j2 k2 h1 h2 ih1 ih2 =>
    intro hi k0
    have hj : j2 ≤ s2.length := h1.high hi
    obtain ⟨c1, hc1⟩ := ih1 hi k0
    obtain ⟨c2, hc2⟩ := ih2 hj c1
    obtain ⟨m, hm⟩ := exists_succ_of_pos (fuel_pos (.seq r1 r2) s2 i2 hi)
    simp only [RE.size] at hm ⊢
    refine ⟨c2, ?_⟩
    rw [hm]
    simp only [mrun, List.mem_flatMap]
    have hd : (r1.size + r2.size + 1 + 1) * (s2.length + 1 - i2)
        = (r1.size + 1) * (s2.length + 1 - i2) + (r2.size + 1) * (s2.length + 1 - i2) := by
      rw [← Nat.add_mul]
      congr 1
      omega
    have hw : 1 * (s2.length + 1 - i2) ≤ (r2.size + 1) * (s2.length + 1 - i2) :=
      Nat.mul_le_mul_right _ (by omega)
    rw [one_mul] at hw
    have hw1 : 1 * (s2.length + 1 - i2) ≤ (r1.size + 1) * (s2.length + 1 - i2) :=
      Nat.mul_le_mul_right _ (by omega)
    rw [one_mul] at hw1
    have hmono : (r2.size + 1) * (s2.length + 1 - j2)
        ≤ (r2.size + 1) * (s2.length + 1 - i2) :=
      Nat.mul_le_mul_left _ (by have := h1.le; omega)
    refine ⟨(j2, c1), mrun_mono (by omega) hc1, mrun_mono (by omega) hc2⟩
  | @altL r1 r2 s2 i2 j2 h1 ih1 =>
    intro hi k0
    obtain ⟨c1, hc1⟩ := ih1 hi k0
    obtain ⟨m, hm⟩ := exists_succ_of_pos (fuel_pos (.alt r1 r2) s2 i2 hi)
    simp only [RE.size] at hm ⊢
    refine ⟨c1, ?_⟩
    rw [hm]
    simp only [mrun, List.mem_append]
    have hd : (r1.size + r2.size + 1 + 1) * (s2.length + 1 - i2)
        = (r1.size + 1) * (s2.length + 1 - i2) + (r2.size + 1) * (s2.length + 1 - i2) := by
      rw [← Nat.add_mul]
      congr 1
      omega
    have hw : 1 * (s2.length + 1 - i2) ≤ (r2.size + 1) * (s2.length + 1 - i2) :=
      Nat.mul_le_mul_right _ (by omega)
    rw [one_mul] at hw
    exact Or.inl (mrun_mono (by omega) hc1)
  | @altR r1 r2 s2 i2 j2 h1 ih1 =>
    intro hi k0
    obtain ⟨c1, hc1⟩ := ih1 hi k0
    obtain ⟨m, hm⟩ := exists_succ_of_pos (fuel_pos (.alt r1 r2) s2 i2 hi)
    simp only [RE.size] at hm ⊢
    refine ⟨c1, ?_⟩
    rw [hm]
    simp only [mrun, List.mem_append]
    have hd : (r1.size + r2.size + 1 + 1) * (s2.length + 1 - i2)
        = (r1.size + 1) * (s2.length + 1 - i2) + (r2.size + 1) * (s2.length + 1 - i2) := by
      rw [← Nat.add_mul]
      congr 1
      omega
    have hw : 1 * (s2.length + 1 - i2) ≤ (r1.size + 1) * (s2.length + 1 - i2) :=
      Nat.mul_le_mul_right _ (by omega)
    rw [one_mul] at hw
    exact Or.inr (mrun_mono (by omega) hc1)
  | @starNil r1 s2 i2 =>
    intro hi k0
    obtain ⟨m, hm⟩ := exists_succ_of_pos (fuel_pos (.starG r1) s2 i2 hi)
    exact ⟨k0, by rw [hm]; simp [mrun]⟩
  | @starCons r1 s2 i2 j2 k2 h1 hlt h2 ih1 ih2 =>
    intro hi k0
    have hj : j2 ≤ s2.length := h1.high hi
    obtain ⟨c1, hc1⟩ := ih1 hi k0
    obtain ⟨c2, hc2⟩ := ih2 hj c1
    obtain ⟨m, hm⟩ := exists_succ_of_pos (fuel_pos (.starG r1) s2 i2 hi)
    simp only [RE.size] at hm hc2 ⊢
    refine ⟨c2, ?_⟩
    rw [hm]
    simp only [mrun, List.mem_append, List.mem_flatMap]
    have hd : (r1.size + 1 + 1) * (s2.length + 1 - i2)
        = (r1.size + 1) * (s2.length + 1 - i2) + 1 * (s2.length + 1 - i2) := by
      rw [← Nat.add_mul]
    rw [one_mul] at hd
    have hsum : (s2.length + 1 - j2) + 1 ≤ s2.length + 1 - i2 := by omega
    have hmono := Nat.mul_le_mul_left (r1.size + 1 + 1) hsum
    rw [Nat.mul_add, Nat.mul_one] at hmono
    refine Or.inl ⟨(j2, c1), mrun_mono (by omega) hc1, ?_⟩
    rw [if_pos hlt]
    exact mrun_mono (by omega) hc2
  | @starLNil r1 s2 i2 =>
    intro hi k0
    obtain ⟨m, hm⟩ := exists_succ_of_pos (fuel_pos (.starL r1) s2 i2 hi)
    exact ⟨k0, by rw [hm]; simp [mrun]⟩
  | @starLCons r1 s2 i2 j2 k2 h1 hlt h2 ih1 ih2 =>
    intro hi k0
    have hj : j2 ≤ s2.length := h1.high hi
    obtain ⟨c1, hc1⟩ := ih1 hi k0
    obtain ⟨c2, hc2⟩ := ih2 hj c1
    obtain ⟨m, hm⟩ := exists_succ_of_pos (fuel_pos (.starL r1) s2 i2 hi)
    simp only [RE.size] at hm hc2 ⊢
    refine ⟨c2, ?_⟩
    rw [hm]
    simp only [mrun, List.mem_cons, List.mem_flatMap]
    have hd : (r1.size + 1 + 1) * (s2.length + 1 - i2)
        = (r1.size + 1) * (s2.length + 1 - i2) + 1 * (s2.length + 1 - i2) := by
      rw [← Nat.add_mul]
    rw [one_mul] at hd
    have hsum : (s2.length + 1 - j2) + 1 ≤ s2.length + 1 - i2 := by omega
    have hmono := Nat.mul_le_mul_left (r1.size + 1 + 1) hsum
    rw [Nat.mul_add, Nat.mul_one] at hmono
    refine Or.inr ⟨(j2, c1), mrun_mono (by omega) hc1, ?_⟩
    rw [if_pos hlt]
    exact mrun_mono (by omega) hc2
  | @optSome r1 s2 i2 j2 h1 ih1 =>
    intro hi k0
    obtain ⟨c1, hc1⟩ := ih1 hi k0
    obtain ⟨m, hm⟩ := exists_succ_of_pos (fuel_pos (.optG r1) s2 i2 hi)
    simp only [RE.size] at hm ⊢
    refine ⟨c1, ?_⟩
    rw [hm]
    simp only [mrun, List.mem_append]
    have hd : (r1.size + 1 + 1) * (s2.length + 1 - i2)
        = (r1.size + 1) * (s2.length + 1 - i2) + 1 * (s2.length + 1 - i2) := by
      rw [← Nat.add_mul]
    rw [one_mul] at hd
    exact Or.inl (mrun_mono (by omega) hc1)
  | @optNone r1 s2 i2 =>
    intro hi k0
    obtain ⟨m, hm⟩ := exists_succ_of_pos (fuel_pos (.optG r1) s2 i2 hi)
    exact ⟨k0, by rw [hm]; simp [mrun]⟩
  | @group n r1 s2 i2 j2 h1 ih1 =>
    intro hi k0
    obtain ⟨c1, hc1⟩ := ih1 hi k0
    obtain ⟨m, hm⟩ := exists_succ_of_pos (fuel_pos (.group n r1) s2 i2 hi)
    simp only [RE.size] at hm ⊢
    refine ⟨(n, i2, j2) :: c1, ?_⟩
    rw [hm]
    simp only [mrun, List.mem_map]
    have hd : (r1.size + 1 + 1) * (s2.length + 1 - i2)
        = (r1.size + 1) * (s2.length + 1 - i2) + 1 * (s2.length + 1 - i2) := by
      rw [← Nat.add_mul]
    rw [one_mul] at hd
    exact ⟨(j2, c1), mrun_mono (by omega) hc1, rfl⟩
  | @wb s2 i2 hw =>
    intro hi k0
    obtain ⟨m, hm⟩ := exists_succ_of_pos (fuel_pos .wb s2 i2 hi)
    exact ⟨k0, by rw [hm]; simp [mrun, hw]⟩
  | @caret s2 =>
    intro hi k0
    obtain ⟨m, hm⟩ := exists_succ_of_pos (fuel_pos .caret s2 0 (by omega))
    exact ⟨k0, by rw [hm]; simp [mrun]⟩
  | @dollar s2 =>
    intro hi k0
    obtain ⟨m, hm⟩ := exists_succ_of_pos (fuel_pos .dollar s2 s2.length (by omega))
    exact ⟨k0, by rw [hm]; simp [mrun]⟩

/-! ## Bridge between the executable search and the semantics -/

/-- Soundness of the leftmost-match search. -/
theorem reFirst_sound {r : RE} {s : Str} {st en : Nat} {caps : Caps}
    (h : reFirst r s = some (st, en, caps)) : Sem r s st en := by
  unfold reFirst at h
  obtain ⟨i, _hi, hfi⟩ := List.exists_of_findSome?_eq_some h
  rcases hrun : mrun (fuelFor r s) r s i [] with _ | ⟨jk, rest⟩
  · rw [hrun] at hfi; simp at hfi
  · rw [hrun] at hfi
    simp only [Option.some.injEq] at hfi
    have hmem : jk ∈ mrun (fuelFor r s) r s i [] := by
      rw [hrun]; exact List.mem_cons_self _ _
    have hsem := mrun_sound hmem
    have h1 : i = st := congrArg (fun t => t.1) hfi
    have h2 : jk.1 = en := congrArg (fun t => t.2.1) hfi
    rw [← h1, ← h2]
    exact hsem

/-- Completeness of `reTest`: any semantic match starting inside the string
makes the test succeed. -/
theorem reTest_complete {r : RE} {s : Str} {i j : Nat}
    (hi : i ≤ s.length) (h : Sem r s i j) : reTest r s = true := by
  obtain ⟨k, hk⟩ := h.complete hi []
  have hk2 : (j, k) ∈ mrun (fuelFor r s) r s i [] := by
    refine mrun_mono ?_ hk
    unfold fuelFor
    exact Nat.mul_le_mul_left _ (by omega)
  unfold reTest
  by_contra hne
  rw [Bool.not_eq_true] at hne
  have hnone : reFirst r s = none :=
    Option.not_isSome_iff_eq_none.mp (by simp [hne])
  unfold reFirst at hnone
  rw [List.findSome?_eq_none_iff] at hnone
  have hthis := hnone i (by simp; omega)
  rcases hrun : mrun (fuelFor r s) r s i [] with _ | ⟨jk, rest⟩
  · rw [hrun] at hk2; simp at hk2
  · rw [hrun] at hthis; simp at hthis

/-- If the search fails, there is no semantic match at any position. -/
theorem reFirst_none {r : RE} {s : Str}
    (h : reFirst r s = none) {i j : Nat} (hi : i ≤ s.length) :
    ¬ Sem r s i j := by
  intro hsem
  have := reTest_complete hi hsem
  unfold reTest at this
  rw [h] at this
  simp at this

/-! ### Inversion lemmas -/

/-- Inversion for sequencing. -/
theorem Sem.seq_elim {r1 r2 : RE} {s : Str} {i k : Nat}
    (h : Sem (.seq r1 r2) s i k) : ∃ j, Sem r1 s i j ∧ Sem r2 s j k := by
  cases h with
  | seq h1 h2 => exact ⟨_, h1, h2⟩

/-- Inversion for character classes. -/
theorem Sem.cls_elim {p : Char → Bool} {s : Str} {i j : Nat}
    (h : Sem (.cls p) s i j) : j = i + 1 ∧ ∃ c, s[i]? = some c ∧ p c = true := by
  cases h with
  | cls hc hp => exact ⟨rfl, _, hc, hp⟩

/-- Inversion for the end anchor. -/
theorem Sem.dollar_elim {s : Str} {i j : Nat}
    (h : Sem .dollar s i j) : i = s.length ∧ j = s.length := by
  cases h with
  | dollar => exact ⟨rfl, rfl⟩

/-! ### Construction toolkit: regexes that consume a block of text -/

/-- `ConsumesP r B`: wherever the block `B` occurs, `r` can match exactly
that block. -/
def ConsumesP (r : RE) (B : Str) : Prop :=
  ∀ U R : Str, Sem r (U ++ B ++ R) U.length (U.length + B.length)

theorem consumes_eps : ConsumesP .eps [] := by
  intro U R
  exact Sem.eps

theorem consumes_cls {p : Char → Bool} {c : Char} (hp : p c = true) :
    ConsumesP (.cls p) [c] := by
  intro U R
  have hc : (U ++ [c] ++ R)[U.length]? = some c := by
    rw [List.append_assoc, List.getElem?_append_right (Nat.le_refl _)]
    simp
  simpa using Sem.cls hc hp

theorem consumes_seq {r1 r2 : RE} {B1 B2 : Str}
    (h1 : ConsumesP r1 B1) (h2 : ConsumesP r2 B2) :
    ConsumesP (.seq r1 r2) (B1 ++ B2) := by
  intro U R
  have s1 := h1 U (B2 ++ R)
  have s2 := h2 (U ++ B1) R
  have e1 : U ++ B1 ++ (B2 ++ R) = U ++ (B1 ++ B2) ++ R := by simp
  have e2 : U ++ B1 ++ B2 ++ R = U ++ (B1 ++ B2) ++ R := by simp
  rw [e1] at s1
  rw [e2] at s2
  simp only [List.length_append] at s2 ⊢
  rw [← Nat.add_assoc]
  exact Sem.seq s1 s2

theorem consumes_lit (v : Str) : ConsumesP (lit v) v := by
  induction v with
  | nil => exact consumes_eps
  | cons c v ih =>
    have := consumes_seq (consumes_cls (p := fun x => x == c) (c := c) (by simp)) ih
    simpa [lit] using this

theorem consumes_starG_nil (r : RE) : ConsumesP (.starG r) [] := by
  intro U R
  exact Sem.starNil

theorem consumes_starG_cls {p : Char → Bool} {B : Str}
    (hall : ∀ c ∈ B, p c = true) : ConsumesP (.starG (.cls p)) B := by
  induction B with
  | nil => exact consumes_starG_nil _
  | cons c B ih =>
    intro U R
    have hstep := consumes_cls (hall c (by simp)) U ((B ++ R : Str))
    have htail := (ih (fun d hd => hall d (by simp [hd]))) (U ++ [c]) R
    have e1 : U ++ [c] ++ (B ++ R) = U ++ (c :: B) ++ R := by simp
    have e2 : U ++ [c] ++ B ++ R = U ++ (c :: B) ++ R := by simp
    rw [e1] at hstep
    rw [e2] at htail
    simp only [List.length_append, List.length_cons, List.length_nil] at htail ⊢
    have hend : List.length U + 1 + List.length B
        = List.length U + (List.length B + 1) := by omega
    rw [hend] at htail
    exact Sem.starCons (by simpa using hstep) (by omega) htail

theorem consumes_optG_some {r : RE} {B : Str} (h : ConsumesP r B) :
    ConsumesP (.optG r) B := fun U R => Sem.optSome (h U R)

theorem consumes_optG_none (r : RE) : ConsumesP (.optG r) [] := by
  intro U R
  exact Sem.optNone

theorem consumes_group {n : Nat} {r : RE} {B : Str} (h : ConsumesP r B) :
    ConsumesP (.group n r) B := fun U R => Sem.group (h U R)

theorem consumes_altL {r1 r2 : RE} {B : Str} (h : ConsumesP r1 B) :
    ConsumesP (.alt r1 r2) B := fun U R => Sem.altL (h U R)

theorem consumes_altR {r1 r2 : RE} {B : Str} (h : ConsumesP r2 B) :
    ConsumesP (.alt r1 r2) B := fun U R => Sem.altR (h U R)

/-- Word boundary at the junction of a non-word character and a word
character. -/
theorem isWB_boundary {A T : Str} {u d : Char}
    (hu : wordChar u = false) (hd : wordChar d = true) :
    isWB ((A ++ [u]) ++ (d :: T)) (A.length + 1) = true := by
  have hleft : ((A ++ [u]) ++ (d :: T))[A.length]? = some u := by
    rw [List.getElem?_append_left (by simp)]
    rw [List.getElem?_append_right (Nat.le_refl _)]
    simp
  have hright : ((A ++ [u]) ++ (d :: T))[A.length + 1]? = some d := by
    rw [List.getElem?_append_right (by simp)]
    simp
  unfold isWB wordAt
  dsimp only
  rw [hleft, hright]
  dsimp only
  rw [hu, hd]
  rfl

/-! ## Properties of `lastIdxGo` / `lastIndexOfStr` -/

theorem lastIdxGo_le {l pat : Str} {i k : Nat}
    (h : lastIdxGo l pat i = some k) : k ≤ i := by
  induction i with
  | zero =>
    unfold lastIdxGo at h
    split at h
    · simp at h; omega
    · simp at h
  | succ i ih =>
    unfold lastIdxGo at h
    split at h
    · simp at h; omega
    · have := ih h; omega

theorem lastIdxGo_found {l pat : Str} {i k : Nat}
    (h : lastIdxGo l pat i = some k) : pat.isPrefixOf (l.drop k) = true := by
  induction i with
  | zero =>
    unfold lastIdxGo at h
    split at h
    · rename_i hpre
      simp only [Option.some.injEq] at h
      subst h
      simpa using hpre
    · simp at h
  | succ i ih =>
    unfold lastIdxGo at h
    split at h
    · rename_i hpre
      simp only [Option.some.injEq] at h
      subst h
      exact hpre
    · exact ih h

theorem lastIdxGo_max {l pat : Str} {i k : Nat}
    (h : lastIdxGo l pat i = some k) :
    ∀ j, k < j → j ≤ i → pat.isPrefixOf (l.drop j) = false := by
  induction i with
  | zero =>
    intro j h1 h2
    unfold lastIdxGo at h
    split at h
    · simp at h; omega
    · simp at h
  | succ i ih =>
    intro j h1 h2
    unfold lastIdxGo at h
    split at h
    · simp at h; omega
    · rcases Nat.lt_or_ge j (i + 1) with hj | hj
      · exact ih h j h1 (by omega)
      · have hji : j = i + 1 := by omega
        subst hji
        rename_i hfalse
        simp only [Bool.not_eq_true] at hfalse
        exact hfalse

theorem lastIdxGo_none {l pat : Str} {i : Nat}
    (h : lastIdxGo l pat i = none) :
    ∀ j, j ≤ i → pat.isPrefixOf (l.drop j) = false := by
  induction i with
  | zero =>
    intro j h2
    unfold lastIdxGo at h
    split at h
    · simp at h
    · have hj : j = 0 := by omega
      subst hj
      rename_i hfalse
      simp only [Bool.not_eq_true] at hfalse
      simpa using hfalse
  | succ i ih =>
    intro j h2
    unfold lastIdxGo at h
    split at h
    · simp at h
    · rcases Nat.lt_or_ge j (i + 1) with hj | hj
      · exact ih h j (by omega)
      · have hji : j = i + 1 := by omega
        subst hji
        rename_i hfalse
        simp only [Bool.not_eq_true] at hfalse
        exact hfalse

/-- An occurrence of a nonempty pattern as an infix yields a drop-position
where it is a prefix. -/
theorem infix_to_drop {pat m : Str} (hinf : pat <:+: m) :
    ∃ q, pat.isPrefixOf (m.drop q) = true := by
  obtain ⟨s1, t1, hst⟩ := hinf
  refine ⟨s1.length, ?_⟩
  have hdrop : m.drop s1.length = pat ++ t1 := by
    rw [← hst, List.append_assoc, List.drop_left]
  rw [hdrop]
  rw [List.isPrefixOf_iff_prefix]
  exact ⟨t1, rfl⟩

/-- A nonempty pattern that is a prefix of `m.drop q` forces `q < m.length`. -/
theorem drop_pos_lt {pat m : Str} {q : Nat} (hne : pat ≠ [])
    (h : pat.isPrefixOf (m.drop q) = true) : q < m.length := by
  by_contra hq
  rw [List.drop_eq_nil_iff.mpr (by omega)] at h
  rw [List.isPrefixOf_iff_prefix] at h
  exact hne (List.prefix_nil.mp h)

/-- The tail produced by a positive-index split contains no further
occurrence of the separator. -/
theorem split_tail_no_sep {nwc : Str} {idx : Nat}
    (h : lastIndexOfStr nwc (str "::") = some idx) :
    ¬ (str "::") <:+: nwc.drop (idx + 2) := by
  intro hinf
  obtain ⟨q, hq⟩ := infix_to_drop hinf
  rw [List.drop_drop] at hq
  have hlt : idx + 2 + q < nwc.length :=
    drop_pos_lt (show str "::" ≠ [] by decide) hq
  have hmax := lastIdxGo_max h (idx + 2 + q) (by omega) (by omega)
  rw [hmax] at hq
  exact Bool.false_ne_true hq

/-- The name component produced by `splitNameWithClass` either contains no
`::` or begins with `::` (the unsplit case of a leading separator). -/
theorem splitNameWithClass_sep (nwc : Str) (fb : Option Str) :
    ¬ (str "::") <:+: (splitNameWithClass nwc fb).2 ∨
      (str "::") <+: (splitNameWithClass nwc fb).2 := by
  unfold splitNameWithClass
  rcases hL : lastIndexOfStr nwc (str "::") with _ | idx
  · left
    dsimp only
    intro hinf
    obtain ⟨q, hq⟩ := infix_to_drop hinf
    have hlt : q < nwc.length := drop_pos_lt (show str "::" ≠ [] by decide) hq
    have := lastIdxGo_none hL q (by omega)
    rw [this] at hq
    exact Bool.false_ne_true hq
  · dsimp only
    by_cases hpos : 0 < idx
    · rw [if_pos hpos]
      left
      exact split_tail_no_sep hL
    · rw [if_neg hpos]
      right
      dsimp only
      have hidx : idx = 0 := by omega
      subst hidx
      have := lastIdxGo_found hL
      rw [List.isPrefixOf_iff_prefix] at this
      simpa using this

/-! ## Claim C1 -/

/-- Any prototype returned by the `part_001` recognizer has its name produced
by `splitNameWithClass`. -/
theorem Impl1.parse_name_shape {doc : Doc} {pl pc : Nat}
    {p : Impl1.FunctionPrototype}
    (h : Impl1.parseFunctionPrototype doc pl pc = some p) :
    ∃ nwc fb, p.name = (splitNameWithClass nwc fb).2 := by
  unfold Impl1.parseFunctionPrototype at h
  dsimp only at h
  split at h
  · exact absurd h (by simp)
  · split at h
    · exact absurd h (by simp)
    · simp only [Option.some.injEq] at h
      exact ⟨_, _, by rw [← h]⟩

/-- Any prototype returned by the `part_002` recognizer has its name produced
by `splitNameWithClass`. -/
theorem Impl2.parse2_name_shape {doc : Doc} {pl pc : Nat}
    {p : Impl2.FunctionPrototype}
    (h : Impl2.parseFunctionPrototype doc pl pc = some p) :
    ∃ nwc fb, p.name = (splitNameWithClass nwc fb).2 := by
  unfold Impl2.parseFunctionPrototype at h
  dsimp only at h
  split at h
  · exact absurd h (by simp)
  · simp only [Option.some.injEq] at h
    exact ⟨_, _, by rw [← h]⟩

/-- C1 counterexample: on the accepted line `int ::foo(int a);` the
recognizer returns a prototype whose `name` is `::foo`, which does contain
the substring `::` — the split is skipped because the last (and only) `::`
occurrence is at index 0, not a positive index, so the claim as stated is
false for names beginning with `::`. -/
theorem claim1_counterexample :
    (Impl1.parseFunctionPrototype [str "int ::foo(int a);"] 0 0).map
        Impl1.FunctionPrototype.name = some (str "::foo") ∧
      (str "::") <:+: (str "::foo") := by
  constructor
  · decide
  · decide

/-- C1 (amended): for every line accepted by either recognizer variant, the
returned `name` either contains no `::` at all, or begins with `::` (the
case of a matched name token whose only `::` occurrence is leading, which
the code leaves unsplit because it requires a positive split index). -/
theorem claim1_name_no_sep :
    (∀ (doc : Doc) (pl pc : Nat) (p : Impl1.FunctionPrototype),
      Impl1.parseFunctionPrototype doc pl pc = some p →
      ¬ (str "::") <:+: p.name ∨ (str "::") <+: p.name) ∧
    (∀ (doc : Doc) (pl pc : Nat) (p : Impl2.FunctionPrototype),
      Impl2.parseFunctionPrototype doc pl pc = some p →
      ¬ (str "::") <:+: p.name ∨ (str "::") <+: p.name) := by
  constructor
  · intro doc pl pc p h
    obtain ⟨nwc, fb, hn⟩ := Impl1.parse_name_shape h
    rw [hn]
    exact splitNameWithClass_sep nwc fb
  · intro doc pl pc p h
    obtain ⟨nwc, fb, hn⟩ := Impl2.parse2_name_shape h
    rw [hn]
    exact splitNameWithClass_sep nwc fb

/-- C1 (amended) witness at the member prototype of the repository's test
suite. -/
theorem claim1_witness :
    (Impl1.parseFunctionPrototype [str "int MyClass::getValue() const noexcept;"] 0 0).elim
      False (fun p => ¬ (str "::") <:+: p.name ∨ (str "::") <+: p.name) := by
  rcases hE : Impl1.parseFunctionPrototype [str "int MyClass::getValue() const noexcept;"] 0 0
    with _ | p
  · exact absurd hE (by decide)
  · exact claim1_name_no_sep.1 _ 0 0 p hE

/-! ## Claim C2 -/

/-- A nonempty list is not `isEmpty`. -/
theorem isEmpty_false_of_ne {l : Str} (h : l ≠ []) : l.isEmpty = false := by
  cases l
  · exact absurd rfl h
  · rfl

theorem Impl1.sigPart_member_tmpl {p : Impl1.FunctionPrototype} {c a : Str}
    (hc : p.className = some c) (hcne : c ≠ []) (hta : p.templateArgs = some a)
    (hane : a ≠ []) :
    Impl1.sigPart p = p.returnType ++ str " " ++ c ++ str "<" ++ a ++ str ">::" ++
      p.name ++ str "(" ++ p.parameters ++ str ") " ++ p.postQualifiers ++
      str "\n\x7b\n" := by
  simp only [Impl1.sigPart, hc, hta, isEmpty_false_of_ne hcne,
    isEmpty_false_of_ne hane]
  simp [List.append_assoc]

theorem Impl1.sigPart_member_plain {p : Impl1.FunctionPrototype} {c : Str}
    (hc : p.className = some c) (hcne : c ≠ []) (hta : p.templateArgs = none) :
    Impl1.sigPart p = p.returnType ++ str " " ++ c ++ str "::" ++
      p.name ++ str "(" ++ p.parameters ++ str ") " ++ p.postQualifiers ++
      str "\n\x7b\n" := by
  simp only [Impl1.sigPart, hc, hta, isEmpty_false_of_ne hcne]
  simp [List.append_assoc]

theorem Impl3.sigPart3_member_tmpl {p : Impl3.FunctionPrototype} {c a : Str}
    (hc : p.className = some c) (hcne : c ≠ []) (hta : p.templateArgs = some a)
    (hane : a ≠ []) :
    Impl3.sigPart p = p.returnType ++ str " " ++ c ++ str "<" ++ a ++ str ">::" ++
      p.name ++ str "(" ++ p.parameters ++ str ")" ++ p.qualifiers ++
      str "\n\x7b\n" := by
  simp only [Impl3.sigPart, Impl3.classTruthy, hc, hta, isEmpty_false_of_ne hcne,
    isEmpty_false_of_ne hane]
  simp [List.append_assoc]

theorem Impl3.sigPart3_member_plain {p : Impl3.FunctionPrototype} {c : Str}
    (hc : p.className = some c) (hcne : c ≠ []) (hta : p.templateArgs = none) :
    Impl3.sigPart p = p.returnType ++ str " " ++ c ++ str "::" ++
      p.name ++ str "(" ++ p.parameters ++ str ")" ++ p.qualifiers ++
      str "\n\x7b\n" := by
  simp only [Impl3.sigPart, Impl3.classTruthy, hc, hta, isEmpty_false_of_ne hcne]
  simp [List.append_assoc]

theorem Impl2.sigLine_source {p : Impl2.FunctionPrototype} {c : Str}
    (hc : p.className = some c) (hcne : c ≠ []) :
    Impl2.sigLine p true = p.returnType ++ str " " ++ c ++ str "::" ++
      p.name ++ str "(" ++ p.parameters ++ str ")" ++ p.qualifiers := by
  simp only [Impl2.sigLine, Impl2.classTruthy, hc, isEmpty_false_of_ne hcne]
  simp [List.append_assoc]

/-- A member prototype in the `part_002` interface, as in the repository's
test suite. -/
def p2MemEx : Impl2.FunctionPrototype :=
  { fullSignature := str "int MyClass::getValue() const noexcept;"
    returnType := str "int"
    name := str "getValue"
    parameters := []
    qualifiers := str " const noexcept"
    isTemplated := false
    className := some (str "MyClass")
    isStatic := false
    isInline := false }

/-- C2 counterexample: the `part_002` synthesizer consults its location flag;
with the flag false the scope prefix is omitted even though `className` is
set, so the claimed prefix property does not hold for every value of the
location flag. -/
theorem claim2_counterexample :
    p2MemEx.className = some (str "MyClass") ∧
      ¬ (str "MyClass::") <:+: Impl2.generateImplementation p2MemEx false := by
  constructor
  · rfl
  · decide

/-- C2 (amended): the prefix property holds unconditionally for the
`part_001` and `part_003` synthesizers (whose location flag, when present,
is not consulted), with `set` read as JS-truthy (nonempty): `Class<Args>::`
when `templateArgs` is truthy and plain `Class::` when it is absent.  For
the `part_002` synthesizer (which has no `templateArgs` field) the plain
`Class::` prefix is emitted only when the location flag marks a source-file
target; with the flag false the prototype is emitted as a free function. -/
theorem claim2_scope_prefix :
    (∀ (p : Impl1.FunctionPrototype) (c a : Str),
      p.className = some c → c ≠ [] → p.templateArgs = some a → a ≠ [] →
      (c ++ str "<" ++ a ++ str ">::" ++ p.name ++ str "(")
        <:+: Impl1.generateImplementation p) ∧
    (∀ (p : Impl1.FunctionPrototype) (c : Str),
      p.className = some c → c ≠ [] → p.templateArgs = none →
      (c ++ str "::" ++ p.name ++ str "(")
        <:+: Impl1.generateImplementation p) ∧
    (∀ (p : Impl3.FunctionPrototype) (c a : Str) (flag : Bool),
      p.className = some c → c ≠ [] → p.templateArgs = some a → a ≠ [] →
      (c ++ str "<" ++ a ++ str ">::" ++ p.name ++ str "(")
        <:+: Impl3.generateImplementation p flag) ∧
    (∀ (p : Impl3.FunctionPrototype) (c : Str) (flag : Bool),
      p.className = some c → c ≠ [] → p.templateArgs = none →
      (c ++ str "::" ++ p.name ++ str "(")
        <:+: Impl3.generateImplementation p flag) ∧
    (∀ (p : Impl2.FunctionPrototype) (c : Str),
      p.className = some c → c ≠ [] →
      (c ++ str "::" ++ p.name ++ str "(")
        <:+: Impl2.generateImplementation p true) := by
  refine ⟨?_, ?_, ?_, ?_, ?_⟩
  · intro p c a hc hcne hta hane
    unfold Impl1.generateImplementation
    rw [Impl1.sigPart_member_tmpl hc hcne hta hane]
    exact ⟨Impl1.tmplPart p ++ Impl1.preqPart p ++ p.returnType ++ str " ",
      p.parameters ++ str ") " ++ p.postQualifiers ++ str "\n\x7b\n" ++
        str "    // TODO: Implement\n" ++ str "\x7d\n",
      by simp [List.append_assoc]⟩
  · intro p c hc hcne hta
    unfold Impl1.generateImplementation
    rw [Impl1.sigPart_member_plain hc hcne hta]
    exact ⟨Impl1.tmplPart p ++ Impl1.preqPart p ++ p.returnType ++ str " ",
      p.parameters ++ str ") " ++ p.postQualifiers ++ str "\n\x7b\n" ++
        str "    // TODO: Implement\n" ++ str "\x7d\n",
      by simp [List.append_assoc]⟩
  · intro p c a flag hc hcne hta hane
    unfold Impl3.generateImplementation
    rw [Impl3.sigPart3_member_tmpl hc hcne hta hane]
    exact ⟨Impl3.tmplPart p ++ p.returnType ++ str " ",
      p.parameters ++ str ")" ++ p.qualifiers ++ str "\n\x7b\n" ++
        str "    // TODO: Implement\n" ++ str "\x7d\n",
      by simp [List.append_assoc]⟩
  · intro p c flag hc hcne hta
    unfold Impl3.generateImplementation
    rw [Impl3.sigPart3_member_plain hc hcne hta]
    exact ⟨Impl3.tmplPart p ++ p.returnType ++ str " ",
      p.parameters ++ str ")" ++ p.qualifiers ++ str "\n\x7b\n" ++
        str "    // TODO: Implement\n" ++ str "\x7d\n",
      by simp [List.append_assoc]⟩
  · intro p c hc hcne
    unfold Impl2.generateImplementation
    rw [Impl2.sigLine_source hc hcne]
    exact ⟨p.returnType ++ str " ",
      p.parameters ++ str ")" ++ p.qualifiers ++ str "\n\x7b\n" ++
        str "    // TODO: Implement\n" ++ Impl2.retPart p ++ str "\x7d\n",
      by simp [List.append_assoc]⟩

/-- C2 (amended) witness at the test suite's member prototype. -/
theorem claim2_witness :
    (str "MyClass" ++ str "::" ++ str "getValue" ++ str "(")
      <:+: Impl2.generateImplementation p2MemEx true :=
  claim2_scope_prefix.2.2.2.2 p2MemEx (str "MyClass") rfl (by decide)

/-! ## Claim C4 -/

/-- The signature part of the `part_001` synthesizer always starts with the
return type followed by a space. -/
theorem Impl1.sigPart_head (p : Impl1.FunctionPrototype) :
    ∃ T, Impl1.sigPart p = p.returnType ++ str " " ++ T := by
  unfold Impl1.sigPart
  rcases hc : p.className with _ | c
  · refine ⟨p.name ++ str "(" ++ p.parameters ++ str ") " ++ p.postQualifiers ++
      str "\n\x7b\n", ?_⟩
    simp [List.append_assoc]
  · dsimp only
    cases hE : c.isEmpty
    · rcases hta : p.templateArgs with _ | a
      · refine ⟨c ++ str "::" ++ p.name ++ str "(" ++ p.parameters ++ str ") " ++
          p.postQualifiers ++ str "\n\x7b\n", ?_⟩
        simp [hE, List.append_assoc]
      · cases hA : a.isEmpty
        · refine ⟨c ++ str "<" ++ a ++ str ">::" ++ p.name ++ str "(" ++
            p.parameters ++ str ") " ++ p.postQualifiers ++ str "\n\x7b\n", ?_⟩
          simp [hE, hA, List.append_assoc]
        · refine ⟨c ++ str "::" ++ p.name ++ str "(" ++ p.parameters ++ str ") " ++
            p.postQualifiers ++ str "\n\x7b\n", ?_⟩
          simp [hE, hA, List.append_assoc]
    · refine ⟨p.name ++ str "(" ++ p.parameters ++ str ") " ++ p.postQualifiers ++
        str "\n\x7b\n", ?_⟩
      simp [hE, List.append_assoc]

/-- A static member prototype. -/
def pStaticEx : Impl1.FunctionPrototype :=
  { fullSignature := str "static void f();"
    returnType := str "void"
    name := str "f"
    parameters := []
    qualifiers := []
    preQualifiers := [str "static"]
    isTemplated := false
    postQualifiers := []
    className := some (str "C")
    classTemplate := none
    templateParams := none
    templateArgs := none
    isStatic := true
    isInline := false }

/-- C4 counterexample: the `part_001` synthesizer (the only variant carrying
`preQualifiers`) has no target flag and always emits the joined
pre-qualifier words — the same text its callers insert into a standalone
source file — so the definition emitted for a member prototype with
`preQualifiers = [static]` does contain `static` before the return type. -/
theorem claim4_counterexample :
    pStaticEx.className = some (str "C") ∧
      pStaticEx.preQualifiers = [str "static"] ∧
      (str "static void C::f(") <:+: Impl1.generateImplementation pStaticEx := by
  refine ⟨rfl, rfl, by decide⟩

/-- C4 (amended): `generateImplementation` of `part_001` emits nonempty
`preQualifiers` unconditionally — joined by spaces, immediately before the
return type — for member and free prototypes alike; no suppression path for
source-file targets exists in the code. -/
theorem claim4_preQualifiers_unconditional :
    ∀ p : Impl1.FunctionPrototype, p.preQualifiers ≠ [] →
      (List.intercalate (str " ") p.preQualifiers ++ str " " ++ p.returnType)
        <:+: Impl1.generateImplementation p := by
  intro p hne
  obtain ⟨T, hT⟩ := Impl1.sigPart_head p
  unfold Impl1.generateImplementation Impl1.preqPart
  rw [hT, if_pos (List.length_pos.mpr hne)]
  exact ⟨Impl1.tmplPart p,
    str " " ++ T ++ str "    // TODO: Implement\n" ++ str "\x7d\n",
    by simp [List.append_assoc]⟩

/-- C4 (amended) witness at the static member prototype. -/
theorem claim4_witness :
    (List.intercalate (str " ") pStaticEx.preQualifiers ++ str " " ++
        pStaticEx.returnType)
      <:+: Impl1.generateImplementation pStaticEx :=
  claim4_preQualifiers_unconditional pStaticEx (by decide)

/-! ## Claim C7 -/

/-- C7: `Helpers.templateNames` maps `template<typename T1, typename T2>`
to `[T1, T2]` and `template<typename T = int>` to `[T]`: the default value
is stripped first, then each comma-separated parameter is reduced to its
final identifier. -/
theorem claim7_templateNames :
    Helpers.templateNames (str "template<typename T1, typename T2>")
        = [str "T1", str "T2"] ∧
      Helpers.templateNames (str "template<typename T = int>") = [str "T"] := by
  constructor
  · decide
  · decide

/-! ## Claim C8 -/

/-- The window of lines a backward scan may inspect: the 100 lines above the
prototype line together with the inspected prefix of the prototype line. -/
def windowSlice (doc : Doc) (pl pc : Nat) : List Str × Str :=
  ((doc.drop (pl - 100)).take (pl - (pl - 100)), (doc.getD pl []).take pc)

/-- The document used to check the window bound: a templated class header
101 lines above the prototype. -/
def bigDocEx : Doc :=
  [str "template<typename T>", str "class Foo \x7b"] ++
    List.replicate 100 [] ++ [str "    void bar();"]

/-- A variant of `bigDocEx` whose lines above the window differ. -/
def bigDocEx2 : Doc :=
  [str "class Other \x7b", str "template<typename U> class Bar \x7b"] ++
    List.replicate 100 [] ++ [str "    void bar();"]

/-- C8: both backward scans of `part_001` read only the 100 preceding lines
(plus the prototype-line prefix): their result depends only on that window;
and a class/template declaration 101 lines above the prototype is not found
— the recognizer still returns a prototype, with `className` and
`templateParams` absent. -/
theorem claim8_bounded_window :
    (∀ (doc1 doc2 : Doc) (pl pc : Nat),
      windowSlice doc1 pl pc = windowSlice doc2 pl pc →
      Impl1.extractClassNameFromContext doc1 pl pc
          = Impl1.extractClassNameFromContext doc2 pl pc ∧
        Impl1.extractTemplateInfo doc1 pl pc = Impl1.extractTemplateInfo doc2 pl pc) ∧
    (Impl1.parseFunctionPrototype bigDocEx 102 0).map
        (fun p => (p.className, p.templateParams)) = some (none, none) := by
  constructor
  · intro doc1 doc2 pl pc hw
    have h1 : (doc1.drop (pl - 100)).take (pl - (pl - 100))
        = (doc2.drop (pl - 100)).take (pl - (pl - 100)) :=
      congrArg Prod.fst hw
    have h2 : (doc1.getD pl []).take pc = (doc2.getD pl []).take pc :=
      congrArg Prod.snd hw
    have htext : getTextUpTo doc1 (pl - 100) pl pc = getTextUpTo doc2 (pl - 100) pl pc := by
      unfold getTextUpTo
      rw [h1, h2]
    constructor
    · unfold Impl1.extractClassNameFromContext
      dsimp only
      rw [htext]
    · unfold Impl1.extractTemplateInfo
      dsimp only
      rw [htext]
  · decide

/-- C8 witness: two documents that agree on the window but have a different
class declaration 101+ lines above give identical scan results. -/
theorem claim8_witness :
    Impl1.extractClassNameFromContext bigDocEx 102 0
        = Impl1.extractClassNameFromContext bigDocEx2 102 0 ∧
      Impl1.extractTemplateInfo bigDocEx 102 0
        = Impl1.extractTemplateInfo bigDocEx2 102 0 :=
  claim8_bounded_window.1 bigDocEx bigDocEx2 102 0 (by decide)

/-! ## Claim C3 -/

/-- No newline occurs in the string (true of every field produced by the
single-line recognizers). -/
def nlFree (l : Str) : Prop := ('\n' : Char) ∉ l

/-- No newline in an optional string (absent reads as empty). -/
def nlFreeO (o : Option Str) : Prop := nlFree (o.getD [])

instance (l : Str) : Decidable (nlFree l) :=
  inferInstanceAs (Decidable (('\n' : Char) ∉ l))

instance (o : Option Str) : Decidable (nlFreeO o) :=
  inferInstanceAs (Decidable (nlFree (o.getD [])))

theorem nlFree_append {a b : Str} (ha : nlFree a) (hb : nlFree b) :
    nlFree (a ++ b) := by
  intro h
  rcases List.mem_append.mp h with h | h
  · exact ha h
  · exact hb h

theorem mem_of_mem_intersperse {sep x : Str} : ∀ {l : List Str},
    x ∈ List.intersperse sep l → x = sep ∨ x ∈ l := by
  intro l
  induction l with
  | nil => intro h; simp at h
  | cons b tl ih =>
    intro h
    cases tl with
    | nil =>
      rw [List.intersperse_singleton] at h
      right; exact h
    | cons c tl2 =>
      rw [List.intersperse_cons_cons] at h
      simp only [List.mem_cons] at h
      rcases h with rfl | h
      · right; exact List.mem_cons_self _ _
      rcases h with rfl | h
      · left; rfl
      · rcases ih (by simpa using h) with h2 | h2
        · left; exact h2
        · right; exact List.mem_cons_of_mem _ h2

theorem nlFree_intercalate {l : List Str}
    (h : ∀ q ∈ l, nlFree q) : nlFree (List.intercalate (str " ") l) := by
  intro hmem
  unfold List.intercalate at hmem
  rw [List.mem_flatten] at hmem
  obtain ⟨x, hx, hcx⟩ := hmem
  rcases mem_of_mem_intersperse hx with rfl | hx2
  · revert hcx; decide
  · exact h x hx2 hcx

/-- Splitting on a newline at a known newline-free head. -/
theorem splitOnChar_append_cons {A B : Str} (h : nlFree A) :
    splitOnChar '\n' (A ++ '\n' :: B) = A :: splitOnChar '\n' B := by
  induction A with
  | nil =>
    simp only [List.nil_append]
    conv_lhs => rw [splitOnChar]
    rw [if_pos (by decide)]
  | cons c A ih =>
    have hc : (c == '\n') = false := by
      have hne : c ≠ '\n' := fun hh => h (by simp [hh])
      simpa using hne
    simp only [List.cons_append]
    conv_lhs => rw [splitOnChar]
    rw [if_neg (by simp [hc])]
    rw [ih (fun hm => h (List.mem_cons_of_mem _ hm))]

/-- Two lists differ when some element is in one but not the other. -/
theorem ne_of_mem_notMem {l1 l2 : Str} {c : Char} (h1 : c ∈ l1) (h2 : c ∉ l2) :
    l2 ≠ l1 := fun he => h2 (he ▸ h1)

/-- The `part_002` signature line always contains an opening parenthesis. -/
theorem Impl2.sigLine_paren (p : Impl2.FunctionPrototype) (flag : Bool) :
    ('(' : Char) ∈ Impl2.sigLine p flag := by
  unfold Impl2.sigLine
  split
  · simp only [List.append_assoc, List.mem_append]
    exact Or.inr (Or.inr (Or.inr (Or.inr (Or.inr (Or.inl (by decide))))))
  · simp only [List.append_assoc, List.mem_append]
    exact Or.inr (Or.inr (Or.inr (Or.inl (by decide))))

/-- The `part_002` signature line is newline-free when the fields are. -/
theorem Impl2.sigLine_nlFree (p : Impl2.FunctionPrototype) (flag : Bool)
    (h1 : nlFree p.returnType) (h2 : nlFree p.name) (h3 : nlFree p.parameters)
    (h4 : nlFree p.qualifiers) (h5 : nlFreeO p.className) :
    nlFree (Impl2.sigLine p flag) := by
  unfold Impl2.sigLine
  split
  · exact nlFree_append (nlFree_append (nlFree_append (nlFree_append
      (nlFree_append (nlFree_append (nlFree_append (nlFree_append h1
        (by decide)) h5) (by decide)) h2) (by decide)) h3) (by decide)) h4
  · exact nlFree_append (nlFree_append (nlFree_append (nlFree_append
      (nlFree_append (nlFree_append h1 (by decide)) h2) (by decide)) h3)
      (by decide)) h4

/-- The line decomposition of a `part_002`-generated implementation. -/
theorem Impl2.gen_lines (p : Impl2.FunctionPrototype) (flag : Bool)
    (hnl : nlFree (Impl2.sigLine p flag)) :
    splitOnChar '\n' (Impl2.generateImplementation p flag)
      = Impl2.sigLine p flag :: str "\x7b" :: str "    // TODO: Implement" ::
        (if !p.returnType.isEmpty && p.returnType ≠ str "void"
          then [str "    return \x7b\x7d;", str "\x7d", []]
          else [str "\x7d", []]) := by
  unfold Impl2.generateImplementation
  have hre : Impl2.sigLine p flag ++ str "\n\x7b\n" ++ str "    // TODO: Implement\n" ++
        Impl2.retPart p ++ str "\x7d\n"
      = Impl2.sigLine p flag ++ '\n' ::
          (str "\x7b\n    // TODO: Implement\n" ++ (Impl2.retPart p ++ str "\x7d\n")) := by
    simp only [List.append_assoc]
    rfl
  rw [hre, splitOnChar_append_cons hnl]
  unfold Impl2.retPart
  by_cases hcond : (!p.returnType.isEmpty && p.returnType ≠ str "void") = true
  · rw [if_pos hcond, if_pos hcond]
    exact congrArg (List.cons (Impl2.sigLine p flag)) (by decide)
  · rw [if_neg hcond, if_neg hcond]
    exact congrArg (List.cons (Impl2.sigLine p flag)) (by decide)

/-- C3: the `return \x7b\x7d;` line.  (`hasRetLine` asks whether the output
contains it as one of its lines.) -/
def hasRetLine (out : Str) : Prop :=
  (str "    return \x7b\x7d;") ∈ splitOnChar '\n' out

/-- The signature part of the `part_001` synthesizer is a newline-free line
containing `(`, followed by the newline-brace-newline tail. -/
theorem Impl1.sigPart_line (p : Impl1.FunctionPrototype)
    (h1 : nlFree p.returnType) (h2 : nlFree p.name) (h3 : nlFree p.parameters)
    (h4 : nlFree p.postQualifiers) (h6 : nlFreeO p.className)
    (h8 : nlFreeO p.templateArgs) :
    ∃ SL, Impl1.sigPart p = SL ++ str "\n\x7b\n" ∧ nlFree SL ∧ ('(' : Char) ∈ SL := by
  have hfree : ∃ SL, (p.returnType ++ str " " ++ p.name ++ str "(" ++ p.parameters ++
      str ") " ++ p.postQualifiers ++ str "\n\x7b\n" : Str)
        = SL ++ str "\n\x7b\n" ∧ nlFree SL ∧ ('(' : Char) ∈ SL := by
    refine ⟨p.returnType ++ str " " ++ p.name ++ str "(" ++ p.parameters ++
      str ") " ++ p.postQualifiers, ?_, ?_, ?_⟩
    · simp [List.append_assoc]
    · exact nlFree_append (nlFree_append (nlFree_append (nlFree_append
        (nlFree_append (nlFree_append h1 (by decide)) h2) (by decide)) h3)
        (by decide)) h4
    · simp only [List.append_assoc, List.mem_append]
      exact Or.inr (Or.inr (Or.inr (Or.inl (by decide))))
  unfold Impl1.sigPart
  rcases hc : p.className with _ | c
  · dsimp only
    exact hfree
  · dsimp only
    have hcn : nlFree c := by
      unfold nlFreeO at h6
      rw [hc] at h6
      simpa using h6
    cases hE : c.isEmpty
    · rw [if_neg (by simp [hE])]
      rcases hta : p.templateArgs with _ | a
      · refine ⟨p.returnType ++ str " " ++ c ++ str "::" ++ p.name ++ str "(" ++
          p.parameters ++ str ") " ++ p.postQualifiers, ?_, ?_, ?_⟩
        · simp [List.append_assoc]
        · exact nlFree_append (nlFree_append (nlFree_append (nlFree_append
            (nlFree_append (nlFree_append (nlFree_append (nlFree_append h1
              (by decide)) hcn) (by decide)) h2) (by decide)) h3) (by decide)) h4
        · simp only [List.append_assoc, List.mem_append]
          exact Or.inr (Or.inr (Or.inr (Or.inr (Or.inr (Or.inl (by decide))))))
      · have han : nlFree a := by
          unfold nlFreeO at h8
          rw [hta] at h8
          simpa using h8
        dsimp only
        cases hA : a.isEmpty
        · rw [if_neg (by simp [hA])]
          refine ⟨p.returnType ++ str " " ++ c ++ str "<" ++ a ++ str ">::" ++
            p.name ++ str "(" ++ p.parameters ++ str ") " ++ p.postQualifiers,
            ?_, ?_, ?_⟩
          · simp [List.append_assoc]
          · exact nlFree_append (nlFree_append (nlFree_append (nlFree_append
              (nlFree_append (nlFree_append (nlFree_append (nlFree_append
                (nlFree_append (nlFree_append h1 (by decide)) hcn) (by decide))
                han) (by decide)) h2) (by decide)) h3) (by decide)) h4
          · simp only [List.append_assoc, List.mem_append]
            exact Or.inr (Or.inr (Or.inr (Or.inr (Or.inr (Or.inr (Or.inr
              (Or.inl (by decide))))))))
        · rw [if_pos (by simp [hA])]
          refine ⟨p.returnType ++ str " " ++ c ++ str "::" ++ p.name ++ str "(" ++
            p.parameters ++ str ") " ++ p.postQualifiers, ?_, ?_, ?_⟩
          · simp [List.append_assoc]
          · exact nlFree_append (nlFree_append (nlFree_append (nlFree_append
              (nlFree_append (nlFree_append (nlFree_append (nlFree_append h1
                (by decide)) hcn) (by decide)) h2) (by decide)) h3) (by decide)) h4
          · simp only [List.append_assoc, List.mem_append]
            exact Or.inr (Or.inr (Or.inr (Or.inr (Or.inr (Or.inl (by decide))))))
    · rw [if_pos (by simp [hE])]
      exact hfree

/-- The template part of the `part_001` synthesizer: empty, or a newline-free
line starting with `t` followed by a newline. -/
theorem Impl1.tmplPart_cases (p : Impl1.FunctionPrototype)
    (h7 : nlFreeO p.templateParams) :
    Impl1.tmplPart p = [] ∨
      ∃ TL, Impl1.tmplPart p = TL ++ '\n' :: [] ∧ nlFree TL ∧
        ∃ X, TL = 't' :: X := by
  unfold Impl1.tmplPart
  rcases htp : p.templateParams with _ | tp
  · exact Or.inl rfl
  · dsimp only
    have htn : nlFree tp := by
      unfold nlFreeO at h7
      rw [htp] at h7
      simpa using h7
    cases hE : tp.isEmpty
    · right
      rw [if_neg (by simp [hE])]
      refine ⟨str "template<" ++ tp ++ str ">", ?_, ?_, ?_⟩
      · have hgt : str ">\n" = str ">" ++ '\n' :: [] := rfl
        rw [hgt]
        simp [List.append_assoc]
      · exact nlFree_append (nlFree_append (by decide) htn) (by decide)
      · exact ⟨str "emplate<" ++ tp ++ str ">", rfl⟩
    · rw [if_pos (by simp [hE])]
      exact Or.inl rfl

/-- The pre-qualifier part of the `part_001` synthesizer is newline-free
when the specifier words are. -/
theorem Impl1.preqPart_nlFree (p : Impl1.FunctionPrototype)
    (h5 : ∀ q ∈ p.preQualifiers, nlFree q) : nlFree (Impl1.preqPart p) := by
  unfold Impl1.preqPart
  split
  · exact nlFree_append (nlFree_intercalate h5) (by decide)
  · intro hmem
    simp at hmem

/-- The `part_001` synthesizer never produces a `return \x7b\x7d;` line. -/
theorem Impl1.gen_no_retLine (p : Impl1.FunctionPrototype)
    (h1 : nlFree p.returnType) (h2 : nlFree p.name) (h3 : nlFree p.parameters)
    (h4 : nlFree p.postQualifiers) (h5 : ∀ q ∈ p.preQualifiers, nlFree q)
    (h6 : nlFreeO p.className) (h7 : nlFreeO p.templateParams)
    (h8 : nlFreeO p.templateArgs) :
    ¬ hasRetLine (Impl1.generateImplementation p) := by
  obtain ⟨SL, hSL, hSLnl, hSLparen⟩ := Impl1.sigPart_line p h1 h2 h3 h4 h6 h8
  have hpq := Impl1.preqPart_nlFree p h5
  unfold hasRetLine Impl1.generateImplementation
  rw [hSL]
  rcases Impl1.tmplPart_cases p h7 with htl | ⟨TL, hTL, hTLnl, X, hX⟩
  · rw [htl]
    have hre : ([] : Str) ++ Impl1.preqPart p ++ (SL ++ str "\n\x7b\n") ++
          str "    // TODO: Implement\n" ++ str "\x7d\n"
        = (Impl1.preqPart p ++ SL) ++ '\n' ::
            (str "\x7b\n    // TODO: Implement\n\x7d\n") := by
      simp only [List.nil_append, List.append_assoc]
      rfl
    rw [hre, splitOnChar_append_cons (nlFree_append hpq hSLnl)]
    intro hmem
    simp only [List.mem_cons] at hmem
    rcases hmem with heq | hmem
    · have hp2 : ('(' : Char) ∈ Impl1.preqPart p ++ SL :=
        List.mem_append_right _ hSLparen
      rw [← heq] at hp2
      exact absurd hp2 (by decide)
    · revert hmem
      decide
  · rw [hTL]
    have hre : (TL ++ '\n' :: []) ++ Impl1.preqPart p ++ (SL ++ str "\n\x7b\n") ++
          str "    // TODO: Implement\n" ++ str "\x7d\n"
        = TL ++ '\n' :: ((Impl1.preqPart p ++ SL) ++ '\n' ::
            (str "\x7b\n    // TODO: Implement\n\x7d\n")) := by
      simp only [List.append_assoc, List.cons_append, List.nil_append]
      rfl
    rw [hre, splitOnChar_append_cons hTLnl,
      splitOnChar_append_cons (nlFree_append hpq hSLnl)]
    intro hmem
    simp only [List.mem_cons] at hmem
    rcases hmem with heq | heq | hmem
    · rw [hX] at heq
      rw [show (str "    return \x7b\x7d;") = ' ' :: str "   return \x7b\x7d;" from rfl]
        at heq
      injection heq with hhead _
      exact absurd hhead (by decide)
    · have hp2 : ('(' : Char) ∈ Impl1.preqPart p ++ SL :=
        List.mem_append_right _ hSLparen
      rw [← heq] at hp2
      exact absurd hp2 (by decide)
    · revert hmem
      decide

/-- The return-statement condition of `part_002` in propositional form. -/
theorem Impl2.retCond_iff (p : Impl2.FunctionPrototype) :
    ((!p.returnType.isEmpty && p.returnType ≠ str "void") = true) ↔
      (p.returnType ≠ [] ∧ p.returnType ≠ str "void") := by
  constructor
  · intro hc
    rw [Bool.and_eq_true] at hc
    obtain ⟨hc1, hc2⟩ := hc
    refine ⟨?_, of_decide_eq_true hc2⟩
    intro hrt
    rw [hrt] at hc1
    simp at hc1
  · rintro ⟨hne, hnv⟩
    rw [Bool.and_eq_true]
    refine ⟨?_, decide_eq_true hnv⟩
    rw [isEmpty_false_of_ne hne]
    rfl

/-- C3: the synthesizer output contains a `return \x7b\x7d;` line exactly
when the return-statement-emitting variant (`part_002`) is used and
`returnType` is nonempty and not `void`; the `part_001` variant (no return
statement) never emits one; and on the prototype parsed from
`void foo(int a, int b);` the no-return-variant output contains
`void foo(int a, int b)` and `// TODO: Implement` and no `return` at all. -/
theorem claim3_return_iff :
    (∀ (p : Impl2.FunctionPrototype) (flag : Bool),
      nlFree p.returnType → nlFree p.name → nlFree p.parameters →
      nlFree p.qualifiers → nlFreeO p.className →
      (hasRetLine (Impl2.generateImplementation p flag) ↔
        (p.returnType ≠ [] ∧ p.returnType ≠ str "void"))) ∧
    (∀ p : Impl1.FunctionPrototype,
      nlFree p.returnType → nlFree p.name → nlFree p.parameters →
      nlFree p.postQualifiers → (∀ q ∈ p.preQualifiers, nlFree q) →
      nlFreeO p.className → nlFreeO p.templateParams → nlFreeO p.templateArgs →
      ¬ hasRetLine (Impl1.generateImplementation p)) ∧
    ((Impl1.parseFunctionPrototype [str "void foo(int a, int b);"] 0 0).map
        (fun p =>
          (subList (str "void foo(int a, int b)") (Impl1.generateImplementation p),
           subList (str "// TODO: Implement") (Impl1.generateImplementation p),
           subList (str "return") (Impl1.generateImplementation p)))
      = some (true, true, false)) := by
  refine ⟨?_, ?_, ?_⟩
  · intro p flag ha hb hcq hd he
    have hnl := Impl2.sigLine_nlFree p flag ha hb hcq hd he
    by_cases hcb : (!p.returnType.isEmpty && p.returnType ≠ str "void") = true
    · refine iff_of_true ?_ ((Impl2.retCond_iff p).mp hcb)
      unfold hasRetLine
      rw [Impl2.gen_lines p flag hnl, if_pos hcb]
      simp
    · refine iff_of_false ?_ (fun hh => hcb ((Impl2.retCond_iff p).mpr hh))
      unfold hasRetLine
      rw [Impl2.gen_lines p flag hnl, if_neg hcb]
      intro hmem
      simp only [List.mem_cons] at hmem
      rcases hmem with heq | hmem
      · have hp2 := Impl2.sigLine_paren p flag
        rw [← heq] at hp2
        exact absurd hp2 (by decide)
      · revert hmem
        decide
  · exact Impl1.gen_no_retLine
  · decide

/-- C3 witness: the return-statement-emitting variant does emit the line for
an `int`-returning member prototype. -/
theorem claim3_witness : hasRetLine (Impl2.generateImplementation p2MemEx true) :=
  (claim3_return_iff.1 p2MemEx true (by decide) (by decide) (by decide)
    (by decide) (by decide)).mpr (by decide)

/-! ## Claim C5 -/

/-- Any match of the end-anchored `part_002` regex forces the line to end
with a semicolon. -/
theorem re2_match_ends_semicolon {line : Str} {i j : Nat}
    (h : Sem functionRegex2 line i j) : line.getLast? = some ';' := by
  obtain ⟨j1, _, h⟩ := h.seq_elim
  obtain ⟨j2, _, h⟩ := h.seq_elim
  obtain ⟨j3, _, h⟩ := h.seq_elim
  obtain ⟨j4, _, h⟩ := h.seq_elim
  obtain ⟨j5, _, h⟩ := h.seq_elim
  obtain ⟨j6, _, h⟩ := h.seq_elim
  obtain ⟨j7, _, h⟩ := h.seq_elim
  obtain ⟨j8, _, h⟩ := h.seq_elim
  obtain ⟨j9, _, h⟩ := h.seq_elim
  obtain ⟨j10, hsemi, h⟩ := h.seq_elim
  obtain ⟨j11, hdollar, _⟩ := h.seq_elim
  obtain ⟨rfl, c, hc, hpc⟩ := hsemi.cls_elim
  obtain ⟨hd1, _⟩ := hdollar.dollar_elim
  have hcs : c = ';' := by simpa using hpc
  subst hcs
  rw [List.getLast?_eq_getElem?, ← hd1]
  simpa using hc

/-- A string whose last character is a non-whitespace `c` still ends with
`c` after trimming. -/
theorem trim_endsWith {l : Str} {c : Char} (hw : wsChar c = false)
    (h : l.getLast? = some c) : endsWith c (trimJS l) = true := by
  have hmem : c ∈ l := List.mem_of_mem_getLast? h
  have hd1ne : l.dropWhile wsChar ≠ [] := by
    intro hnil
    have := List.dropWhile_eq_nil_iff.mp hnil c hmem
    rw [this] at hw
    exact absurd hw (by decide)
  have hd1last : (l.dropWhile wsChar).getLast? = some c := by
    obtain ⟨pre, hpre⟩ := List.dropWhile_suffix (l := l) wsChar
    rw [← hpre] at h
    rw [← List.getLast?_append_of_ne_nil pre hd1ne]
    exact h
  have hrhead : (l.dropWhile wsChar).reverse.head? = some c := by
    rw [List.head?_reverse]
    exact hd1last
  rcases hr : (l.dropWhile wsChar).reverse with _ | ⟨c0, r'⟩
  · rw [hr] at hrhead
    simp at hrhead
  · rw [hr] at hrhead
    simp only [List.head?_cons, Option.some.injEq] at hrhead
    subst hrhead
    unfold trimJS endsWith
    rw [hr, List.dropWhile_cons, hw]
    simp only [Bool.false_eq_true, if_false]
    rw [List.getLast?_reverse]
    simp

/-- C5: for every document and position whose current line, after trimming,
does not end with `;`, both recognizer variants return no result:
`part_001` rejects through its explicit `endsWith` check, and `part_002`
through the `;$` tail of its end-anchored regex. -/
theorem claim5_semicolon_required :
    ∀ (doc : Doc) (pl pc : Nat),
      endsWith ';' (trimJS (doc.getD pl [])) = false →
      Impl1.parseFunctionPrototype doc pl pc = none ∧
        Impl2.parseFunctionPrototype doc pl pc = none := by
  intro doc pl pc h
  constructor
  · unfold Impl1.parseFunctionPrototype
    dsimp only
    rw [h]
    rfl
  · unfold Impl2.parseFunctionPrototype
    dsimp only
    rcases hF : reFirst functionRegex2 (doc.getD pl []) with _ | v
    · rfl
    · exfalso
      obtain ⟨st, en, caps⟩ := v
      have hsem := reFirst_sound hF
      have hlast := re2_match_ends_semicolon hsem
      have htr := trim_endsWith (by decide) hlast
      rw [htr] at h
      exact absurd h (by decide)

/-- C5 witness at a line with no terminating semicolon. -/
theorem claim5_witness :
    Impl1.parseFunctionPrototype [str "void foo(int a, int b)"] 0 0 = none ∧
      Impl2.parseFunctionPrototype [str "void foo(int a, int b)"] 0 0 = none :=
  claim5_semicolon_required [str "void foo(int a, int b)"] 0 0 (by decide)

/-! ## Shared machinery for the duplicate detector (claims C6 and C10)

The detector patterns all end with
`\s*\([^)]*\)(?:\s*[\w\s]*)?\s*\x7b`; `tailBlock` is the piece of text that
this tail (together with the leading function name) consumes in the
constructed matches: the name, the parenthesized arguments (no `)` inside),
a whitespace run, a word-or-whitespace run, and the opening brace. -/
def tailBlock (n params gws gwv : Str) : Str :=
  n ++ ([] ++ (['('] ++ (params ++ ([')'] ++ ((gws ++ gwv) ++
    ([] ++ (['\x7b'] ++ ([] : Str))))))))

/-- The name-plus-tail fragment shared by all detector patterns consumes
`tailBlock`. -/
theorem consumesTailN {n params gws gwv : Str}
    (hp : ∀ x ∈ params, (x == ')') = false)
    (hg1 : ∀ x ∈ gws, wsChar x = true)
    (hg2 : ∀ x ∈ gwv, (wordChar x || wsChar x) = true) :
    ConsumesP (.seq (lit n) (.seq (.starG wsRE) (.seq (chr '(')
      (.seq (.starG (.cls fun c => !(c == ')'))) (.seq (chr ')')
        (.seq (.optG (.seq (.starG wsRE)
            (.starG (.cls fun c => wordChar c || wsChar c))))
          (.seq (.starG wsRE) (.seq (chr '\x7b') .eps))))))))
      (tailBlock n params gws gwv) := by
  refine consumes_seq (consumes_lit n) ?_
  refine consumes_seq (consumes_starG_nil _) ?_
  refine consumes_seq (consumes_cls (by decide)) ?_
  refine consumes_seq (consumes_starG_cls ?_) ?_
  · intro x hx
    simp [hp x hx]
  refine consumes_seq (consumes_cls (by decide)) ?_
  refine consumes_seq (consumes_optG_some (consumes_seq (consumes_starG_cls hg1)
    (consumes_starG_cls hg2))) ?_
  refine consumes_seq (consumes_starG_nil _) ?_
  exact consumes_seq (consumes_cls (by decide)) consumes_eps

/-- The free-function detector pattern of `part_001` matches whenever the
name follows a non-word character and is followed by a `)`-free argument
list, whitespace, word-or-whitespace filler, and an opening brace. -/
theorem freeRE_test {u : Char} {n params g w A R text : Str}
    (htext : text = ((A ++ [u]) ++ tailBlock n params g w) ++ R)
    (hu : wordChar u = false) (hn : n ≠ [])
    (hw : ∀ x ∈ n, wordChar x = true)
    (hp : ∀ x ∈ params, (x == ')') = false)
    (hg1 : ∀ x ∈ g, wsChar x = true)
    (hg2 : ∀ x ∈ w, (wordChar x || wsChar x) = true) :
    reTest (Impl1.freeImplRE n) text = true := by
  subst htext
  rcases hnn : n with _ | ⟨d, n'⟩
  · exact absurd hnn hn
  subst hnn
  have hrest := consumesTailN (n := d :: n') hp hg1 hg2 (A ++ [u]) R
  have hwb : isWB (((A ++ [u]) ++ tailBlock (d :: n') params g w) ++ R)
      (A.length + 1) = true := by
    have hbd := isWB_boundary (A := A) (u := u) (d := d)
      (T := (n' ++ ([] ++ (['('] ++ (params ++ ([')'] ++ ((g ++ w) ++
        ([] ++ (['\x7b'] ++ ([] : Str))))))))) ++ R) hu (hw d (by simp))
    have heq : (A ++ [u]) ++ (d :: ((n' ++ ([] ++ (['('] ++ (params ++ ([')'] ++
          ((g ++ w) ++ ([] ++ (['\x7b'] ++ ([] : Str))))))))) ++ R))
        = ((A ++ [u]) ++ tailBlock (d :: n') params g w) ++ R := by
      simp [tailBlock, List.append_assoc]
    rw [heq] at hbd
    exact hbd
  have hsem : Sem (Impl1.freeImplRE (d :: n'))
      (((A ++ [u]) ++ tailBlock (d :: n') params g w) ++ R)
      ((A ++ [u]).length)
      ((A ++ [u]).length + (tailBlock (d :: n') params g w).length) := by
    refine Sem.seq (Sem.wb ?_) hrest
    simpa using hwb
  refine reTest_complete ?_ hsem
  simp

/-- The member-function detector pattern of `part_001` matches a
`Class(<...>)?::name(...)...\x7b` stretch preceded by a non-word character.
The optional angle-bracket block is supplied abstractly. -/
theorem memberRE_test {u : Char} {c B n params g w A R text : Str}
    (htext : text = ((A ++ [u]) ++ (c ++ (B ++ (str "::" ++
      tailBlock n params g w)))) ++ R)
    (hu : wordChar u = false) (hc : c ≠ [])
    (hwc : ∀ x ∈ c, wordChar x = true)
    (hang : ConsumesP angleOpt B)
    (hp : ∀ x ∈ params, (x == ')') = false)
    (hg1 : ∀ x ∈ g, wsChar x = true)
    (hg2 : ∀ x ∈ w, (wordChar x || wsChar x) = true) :
    reTest (Impl1.memberImplRE c n) text = true := by
  subst htext
  rcases hcc : c with _ | ⟨d, c'⟩
  · exact absurd hcc hc
  subst hcc
  have hrest : ConsumesP (.seq (lit (d :: c')) (.seq angleOpt (.seq (lit (str "::"))
      (.seq (lit n) (.seq (.starG wsRE) (.seq (chr '(')
        (.seq (.starG (.cls fun x => !(x == ')'))) (.seq (chr ')')
          (.seq (.optG (.seq (.starG wsRE)
              (.starG (.cls fun x => wordChar x || wsChar x))))
            (.seq (.starG wsRE) (.seq (chr '\x7b') .eps)))))))))))
      ((d :: c') ++ (B ++ (str "::" ++ tailBlock n params g w))) :=
    consumes_seq (consumes_lit (d :: c')) (consumes_seq hang
      (consumes_seq (consumes_lit (str "::")) (consumesTailN hp hg1 hg2)))
  have hrest2 := hrest (A ++ [u]) R
  have hwb : isWB (((A ++ [u]) ++ ((d :: c') ++ (B ++ (str "::" ++
        tailBlock n params g w)))) ++ R) (A.length + 1) = true := by
    have hbd := isWB_boundary (A := A) (u := u) (d := d)
      (T := (c' ++ (B ++ (str "::" ++ tailBlock n params g w))) ++ R) hu
      (hwc d (by simp))
    have heq : (A ++ [u]) ++ (d :: ((c' ++ (B ++ (str "::" ++
          tailBlock n params g w))) ++ R))
        = ((A ++ [u]) ++ ((d :: c') ++ (B ++ (str "::" ++
            tailBlock n params g w)))) ++ R := by
      simp [List.append_assoc]
    rw [heq] at hbd
    exact hbd
  have hsem : Sem (Impl1.memberImplRE (d :: c') n)
      (((A ++ [u]) ++ ((d :: c') ++ (B ++ (str "::" ++
        tailBlock n params g w)))) ++ R)
      ((A ++ [u]).length)
      ((A ++ [u]).length + ((d :: c') ++ (B ++ (str "::" ++
        tailBlock n params g w))).length) := by
    refine Sem.seq (Sem.wb ?_) hrest2
    simpa using hwb
  refine reTest_complete ?_ hsem
  simp

/-- The detector pattern of `part_002` (no word boundary) matches whenever
its full name is followed by a `)`-free argument list, whitespace,
word-or-whitespace filler, and an opening brace. -/
theorem implRE2_test {full params g w U R text : Str}
    (htext : text = (U ++ tailBlock full params g w) ++ R)
    (hp : ∀ x ∈ params, (x == ')') = false)
    (hg1 : ∀ x ∈ g, wsChar x = true)
    (hg2 : ∀ x ∈ w, (wordChar x || wsChar x) = true) :
    reTest (Impl2.implRE full) text = true := by
  subst htext
  have hrest := consumesTailN (n := full) hp hg1 hg2 U R
  refine reTest_complete ?_ hrest
  simp

/-! ## Claim C6 -/

theorem Impl1.sigPart_free {p : Impl1.FunctionPrototype}
    (hc : p.className = none ∨ p.className = some []) :
    Impl1.sigPart p = p.returnType ++ str " " ++ p.name ++ str "(" ++
      p.parameters ++ str ") " ++ p.postQualifiers ++ str "\n\x7b\n" := by
  rcases hc with hc | hc
  · simp [Impl1.sigPart, hc, List.append_assoc]
  · simp [Impl1.sigPart, hc, List.append_assoc]

theorem Impl1.sigPart_member_tmpl_empty {p : Impl1.FunctionPrototype} {c : Str}
    (hc : p.className = some c) (hcne : c ≠ []) (hta : p.templateArgs = some []) :
    Impl1.sigPart p = p.returnType ++ str " " ++ c ++ str "::" ++
      p.name ++ str "(" ++ p.parameters ++ str ") " ++ p.postQualifiers ++
      str "\n\x7b\n" := by
  simp only [Impl1.sigPart, hc, hta, isEmpty_false_of_ne hcne]
  simp [List.append_assoc]

/-- `templateArgs` contains no closing angle bracket (vacuous when absent). -/
def angleFree : Option Str → Prop
  | some a => ∀ x ∈ a, (x == '>') = false
  | none => True

instance (o : Option Str) : Decidable (angleFree o) :=
  match o with
  | some a => inferInstanceAs (Decidable (∀ x ∈ a, (x == '>') = false))
  | none => inferInstanceAs (Decidable True)

/-- A free-function prototype whose parameter text itself contains a closing
parenthesis (e.g. a function-pointer argument or defaulted call). -/
def pParenC6Ex : Impl1.FunctionPrototype :=
  { fullSignature := str "int foo(int (*g)(int));"
    returnType := str "int"
    name := str "foo"
    parameters := str "bar(x)"
    qualifiers := []
    preQualifiers := []
    isTemplated := false
    postQualifiers := []
    className := none
    classTemplate := none
    templateParams := none
    templateArgs := none
    isStatic := false
    isInline := false }

/-- A templated member prototype used as the C6 witness input. -/
def pMemC6Ex : Impl1.FunctionPrototype :=
  { fullSignature := str "int Box::getValue() const noexcept;"
    returnType := str "int"
    name := str "getValue"
    parameters := []
    qualifiers := []
    preQualifiers := []
    isTemplated := true
    postQualifiers := str "const noexcept"
    className := some (str "Box")
    classTemplate := none
    templateParams := some (str "typename T")
    templateArgs := some (str "T")
    isStatic := false
    isInline := false }

/-- C6 counterexample: for a prototype whose `parameters` text contains `)`,
the duplicate detector does not recognize the synthesizer's own output —
its `[^)]*` argument matcher stops at the first closing parenthesis — so
detector-after-synthesizer is not true for every prototype. -/
theorem claim6_counterexample :
    Impl1.functionAlreadyImplemented pParenC6Ex.name pParenC6Ex.className
      (Impl1.generateImplementation pParenC6Ex) = false := by
  decide

/-- C6 (amended): the detector does recognize the synthesizer's own output
for every prototype whose fields are regex-benign: the name is a nonempty
word-character string, the parameters contain no `)`, the post-qualifiers
are word characters or whitespace, and — for member prototypes — the class
name is a nonempty word-character string and the template-argument text
contains no `>`. -/
theorem claim6_detector_idempotent :
    (∀ p : Impl1.FunctionPrototype,
      p.className = none ∨ p.className = some [] →
      p.name ≠ [] → (∀ x ∈ p.name, wordChar x = true) →
      (∀ x ∈ p.parameters, (x == ')') = false) →
      (∀ x ∈ p.postQualifiers, (wordChar x || wsChar x) = true) →
      Impl1.functionAlreadyImplemented p.name p.className
        (Impl1.generateImplementation p) = true) ∧
    (∀ (p : Impl1.FunctionPrototype) (c : Str),
      p.className = some c → c ≠ [] →
      (∀ x ∈ c, wordChar x = true) →
      (∀ x ∈ p.parameters, (x == ')') = false) →
      (∀ x ∈ p.postQualifiers, (wordChar x || wsChar x) = true) →
      angleFree p.templateArgs →
      Impl1.functionAlreadyImplemented p.name p.className
        (Impl1.generateImplementation p) = true) := by
  constructor
  · intro p hcf hn hw hp hq
    have hg2 : ∀ x ∈ p.postQualifiers ++ ['\n'], (wordChar x || wsChar x) = true := by
      intro x hx
      rcases List.mem_append.mp hx with h | h
      · exact hq x h
      · rw [List.mem_singleton] at h
        subst h
        decide
    have hgoal : reTest (Impl1.freeImplRE p.name)
        (Impl1.generateImplementation p) = true := by
      refine freeRE_test (u := ' ')
        (A := Impl1.tmplPart p ++ Impl1.preqPart p ++ p.returnType)
        (g := [' ']) (w := p.postQualifiers ++ ['\n'])
        (R := '\n' :: (str "    // TODO: Implement\n" ++ str "\x7d\n"))
        ?_ (by decide) hn hw hp (by decide) hg2
      rw [Impl1.generateImplementation, Impl1.sigPart_free hcf]
      simp only [tailBlock, List.append_assoc, List.cons_append, List.nil_append,
        List.append_nil,
        show str " " = [' '] from rfl,
        show str "(" = ['('] from rfl,
        show str ") " = [')', ' '] from rfl,
        show str "\n\x7b\n" = ['\n', '\x7b', '\n'] from rfl]
    rcases hcf with hc | hc
    · rw [hc]
      exact hgoal
    · rw [hc]
      exact hgoal
  · intro p c hcn hc hwc hp hq hang
    rw [hcn]
    have hfa : Impl1.functionAlreadyImplemented p.name (some c)
        (Impl1.generateImplementation p)
        = reTest (Impl1.memberImplRE c p.name) (Impl1.generateImplementation p) := by
      simp [Impl1.functionAlreadyImplemented, isEmpty_false_of_ne hc]
    rw [hfa]
    have hg2 : ∀ x ∈ p.postQualifiers ++ ['\n'], (wordChar x || wsChar x) = true := by
      intro x hx
      rcases List.mem_append.mp hx with h | h
      · exact hq x h
      · rw [List.mem_singleton] at h
        subst h
        decide
    rcases hta : p.templateArgs with _ | ta
    · refine memberRE_test (u := ' ')
        (A := Impl1.tmplPart p ++ Impl1.preqPart p ++ p.returnType)
        (B := ([] : Str)) (g := [' ']) (w := p.postQualifiers ++ ['\n'])
        (R := '\n' :: (str "    // TODO: Implement\n" ++ str "\x7d\n"))
        ?_ (by decide) hc hwc (consumes_optG_none _) hp (by decide) hg2
      rw [Impl1.generateImplementation, Impl1.sigPart_member_plain hcn hc hta]
      simp only [tailBlock, List.append_assoc, List.cons_append, List.nil_append,
        List.append_nil,
        show str " " = [' '] from rfl,
        show str "(" = ['('] from rfl,
        show str ") " = [')', ' '] from rfl,
        show str "::" = [':', ':'] from rfl,
        show str "\n\x7b\n" = ['\n', '\x7b', '\n'] from rfl]
    · rcases htae : ta with _ | ⟨d, ta'⟩
      · refine memberRE_test (u := ' ')
          (A := Impl1.tmplPart p ++ Impl1.preqPart p ++ p.returnType)
          (B := ([] : Str)) (g := [' ']) (w := p.postQualifiers ++ ['\n'])
          (R := '\n' :: (str "    // TODO: Implement\n" ++ str "\x7d\n"))
          ?_ (by decide) hc hwc (consumes_optG_none _) hp (by decide) hg2
        rw [Impl1.generateImplementation,
          Impl1.sigPart_member_tmpl_empty hcn hc (htae ▸ hta)]
        simp only [tailBlock, List.append_assoc, List.cons_append, List.nil_append,
          List.append_nil,
          show str " " = [' '] from rfl,
          show str "(" = ['('] from rfl,
          show str ") " = [')', ' '] from rfl,
          show str "::" = [':', ':'] from rfl,
          show str "\n\x7b\n" = ['\n', '\x7b', '\n'] from rfl]
      · have hangSome : ∀ x ∈ (d :: ta'), (x == '>') = false := by
          have h0 : angleFree (some (d :: ta')) := by
            rw [← htae, ← hta]
            exact hang
          exact h0
        have hst : ∀ x ∈ (d :: ta'), (fun ch => !(ch == '>')) x = true := by
          intro x hx
          simp [hangSome x hx]
        have hang2 : ConsumesP angleOpt
            (['<'] ++ ((d :: ta') ++ (['>'] ++ ([] : Str)))) :=
          consumes_optG_some (consumes_seq (consumes_cls (by decide))
            (consumes_seq (consumes_starG_cls hst)
              (consumes_seq (consumes_cls (by decide)) consumes_eps)))
        refine memberRE_test (u := ' ')
          (A := Impl1.tmplPart p ++ Impl1.preqPart p ++ p.returnType)
          (B := ['<'] ++ ((d :: ta') ++ (['>'] ++ ([] : Str))))
          (g := [' ']) (w := p.postQualifiers ++ ['\n'])
          (R := '\n' :: (str "    // TODO: Implement\n" ++ str "\x7d\n"))
          ?_ (by decide) hc hwc hang2 hp (by decide) hg2
        rw [Impl1.generateImplementation,
          Impl1.sigPart_member_tmpl hcn hc (htae ▸ hta) (by simp)]
        simp only [tailBlock, List.append_assoc, List.cons_append, List.nil_append,
          List.append_nil,
          show str " " = [' '] from rfl,
          show str "(" = ['('] from rfl,
          show str ") " = [')', ' '] from rfl,
          show str "<" = ['<'] from rfl,
          show str ">::" = ['>', ':', ':'] from rfl,
          show str "::" = [':', ':'] from rfl,
          show str "\n\x7b\n" = ['\n', '\x7b', '\n'] from rfl]

/-- C6 (amended) witness at a templated member prototype. -/
theorem claim6_witness :
    Impl1.functionAlreadyImplemented pMemC6Ex.name pMemC6Ex.className
      (Impl1.generateImplementation pMemC6Ex) = true :=
  claim6_detector_idempotent.2 pMemC6Ex (str "Box") rfl (by decide) (by decide)
    (by decide) (by decide) (by decide)

/-! ## Claim C10 -/

/-- C10: the duplicate detector in free-function mode (`className` absent)
reports true on any haystack containing a member definition
`SomeClass::name(args) \x7b` of the same name: the `part_001` free pattern's
word boundary also holds right after `::` (a non-word character precedes the
name), and the `part_002` pattern has no boundary at all. The name is a
nonempty word-character string and the argument text contains no `)`. -/
theorem claim10_free_mode_finds_member :
    (∀ pre cls n args post : Str,
      n ≠ [] → (∀ x ∈ n, wordChar x = true) →
      (∀ x ∈ args, (x == ')') = false) →
      Impl1.functionAlreadyImplemented n none
        (pre ++ cls ++ str "::" ++ n ++ str "(" ++ args ++ str ") \x7b" ++ post)
        = true) ∧
    (∀ pre cls n args post : Str,
      (∀ x ∈ args, (x == ')') = false) →
      Impl2.functionAlreadyImplemented n none
        (pre ++ cls ++ str "::" ++ n ++ str "(" ++ args ++ str ") \x7b" ++ post)
        = true) := by
  constructor
  · intro pre cls n args post hn hw hp
    show reTest (Impl1.freeImplRE n)
      (pre ++ cls ++ str "::" ++ n ++ str "(" ++ args ++ str ") \x7b" ++ post)
      = true
    refine freeRE_test (u := ':') (A := pre ++ cls ++ [':'])
      (g := [' ']) (w := ([] : Str)) (R := post)
      ?_ (by decide) hn hw hp (by decide) (by decide)
    simp only [tailBlock, List.append_assoc, List.cons_append, List.nil_append,
      List.append_nil,
      show str "::" = [':', ':'] from rfl,
      show str "(" = ['('] from rfl,
      show str ") \x7b" = [')', ' ', '\x7b'] from rfl]
  · intro pre cls n args post hp
    show reTest (Impl2.implRE n)
      (pre ++ cls ++ str "::" ++ n ++ str "(" ++ args ++ str ") \x7b" ++ post)
      = true
    refine implRE2_test (U := pre ++ cls ++ str "::")
      (g := [' ']) (w := ([] : Str)) (R := post)
      ?_ hp (by decide) (by decide)
    simp only [tailBlock, List.append_assoc, List.cons_append, List.nil_append,
      List.append_nil,
      show str "(" = ['('] from rfl,
      show str ") \x7b" = [')', ' ', '\x7b'] from rfl]

/-- C10 witness: both detectors find `int MyClass::getValue(int a) \x7b` in
free-function mode. -/
theorem claim10_witness :
    Impl1.functionAlreadyImplemented (str "getValue") none
      (str "int " ++ str "MyClass" ++ str "::" ++ str "getValue" ++ str "(" ++
        str "int a" ++ str ") \x7b" ++ str "\n\x7d") = true ∧
    Impl2.functionAlreadyImplemented (str "getValue") none
      (str "int " ++ str "MyClass" ++ str "::" ++ str "getValue" ++ str "(" ++
        str "int a" ++ str ") \x7b" ++ str "\n\x7d") = true :=
  ⟨claim10_free_mode_finds_member.1 (str "int ") (str "MyClass") (str "getValue")
      (str "int a") (str "\n\x7d") (by decide) (by decide) (by decide),
    claim10_free_mode_finds_member.2 (str "int ") (str "MyClass") (str "getValue")
      (str "int a") (str "\n\x7d") (by decide)⟩

/-! ## Claim C9

The backward class scan of `part_001` checks the class regex on each line
before any brace analysis, so a class closed on its own declaration line
(`class A \x7b \x7d;`) is still reported.  The analysis below characterizes
the documents the scan does handle: closed multi-line class blocks (header
and `\x7d;` on different lines) are skipped, and benign lines are passed
over. -/

theorem subList_single_false {c : Char} {l : Str} (h : c ∉ l) :
    subList [c] l = false := by
  induction l with
  | nil => rfl
  | cons d t ih =>
    simp only [List.mem_cons, not_or] at h
    show (List.isPrefixOf [c] (d :: t) || subList [c] t) = false
    rw [ih h.2, Bool.or_false]
    simp [List.isPrefixOf, h.1]

theorem subList_infix_iff {pat l : Str} : subList pat l = true ↔ pat <:+: l := by
  induction l with
  | nil =>
    constructor
    · intro h
      have hp : pat = [] := by
        cases pat with
        | nil => rfl
        | cons c t => simp [subList] at h
      subst hp
      exact List.infix_rfl
    · intro h
      obtain ⟨s, t, hst⟩ := h
      simp only [List.append_eq_nil] at hst
      rw [hst.1.2]
      rfl
  | cons c t ih =>
    show (List.isPrefixOf pat (c :: t) || subList pat t) = true ↔ _
    rw [Bool.or_eq_true, ih, List.isPrefixOf_iff_prefix]
    exact List.infix_cons_iff.symm

theorem subList_close_of_closeSemi {l : Str}
    (h : subList (str "\x7d;") l = true) : subList (str "\x7d") l = true := by
  rw [ subList_infix_iff] at h ⊢
  exact List.IsInfix.trans ⟨[], [';'], rfl⟩ h

theorem getD_append_idx {L M : List Str} (t : Nat) :
    (L ++ M).getD (L.length + t) [] = M.getD t [] := by
  rw [List.getD_eq_getElem?_getD, List.getD_eq_getElem?_getD,
    List.getElem?_append_right (Nat.le_add_right _ _), Nat.add_sub_cancel_left]

theorem getD_append_lt {L M : List Str} {t : Nat} (h : t < L.length) :
    (L ++ M).getD t [] = L.getD t [] := by
  rw [List.getD_eq_getElem?_getD, List.getD_eq_getElem?_getD,
    List.getElem?_append_left h]

/-- A newline-free string splits to itself. -/
theorem splitOnChar_nlFree {A : Str} (h : nlFree A) :
    splitOnChar '\n' A = [A] := by
  induction A with
  | nil => rfl
  | cons c A ih =>
    have hc : (c == '\n') = false := by
      have hne : c ≠ '\n' := fun hh => h (by simp [hh])
      simpa using hne
    conv_lhs => rw [splitOnChar]
    rw [if_neg (by simp [hc])]
    rw [ih (fun hm => h (List.mem_cons_of_mem _ hm))]

/-- Splitting a newline-joined list of newline-free lines recovers the list. -/
theorem splitOnChar_intercalate : ∀ {L : List Str}, L ≠ [] →
    (∀ l ∈ L, nlFree l) →
    splitOnChar '\n' (List.intercalate (str "\n") L) = L := by
  intro L
  induction L with
  | nil => intro h; exact absurd rfl h
  | cons a L ih =>
    intro _ hall
    cases L with
    | nil =>
      have hone : List.intercalate (str "\n") [a] = a := by
        simp [List.intercalate]
      rw [hone]
      exact splitOnChar_nlFree (hall a (by simp))
    | cons b L2 =>
      have hint : List.intercalate (str "\n") (a :: b :: L2)
          = a ++ '\n' :: List.intercalate (str "\n") (b :: L2) := by
        simp only [List.intercalate, List.intersperse_cons_cons, List.flatten_cons]
        simp [show str "\n" = ['\n'] from rfl]
      rw [hint, splitOnChar_append_cons (hall a (by simp))]
      rw [ih (by simp) (fun l hl => hall l (List.mem_cons_of_mem _ hl))]

/-- The inner brace scan never returns an index above its starting point. -/
theorem braceScanGo_le {lines : List Str} : ∀ {j : Nat} {c : Int} {r : Nat},
    Impl1.braceScanGo lines j c = some r → r ≤ j := by
  intro j
  induction j with
  | zero =>
    intro c r h
    rw [Impl1.braceScanGo.eq_1] at h
    split at h
    · injection h with h2
      omega
    · simp at h
  | succ j' ih =>
    intro c r h
    rw [Impl1.braceScanGo.eq_2] at h
    split at h
    · injection h with h2
      omega
    · exact Nat.le_succ_of_le (ih h)

/-- The inner brace scan only reads lines at or below its starting index, so
appending lines after them does not change it. -/
theorem braceScanGo_frame {L M : List Str} : ∀ {j : Nat} {c : Int},
    j < L.length →
    Impl1.braceScanGo (L ++ M) j c = Impl1.braceScanGo L j c := by
  intro j
  induction j with
  | zero =>
    intro c hj
    rw [Impl1.braceScanGo.eq_1, Impl1.braceScanGo.eq_1]
    rw [getD_append_lt hj]
  | succ j' ih =>
    intro c hj
    rw [Impl1.braceScanGo.eq_2, Impl1.braceScanGo.eq_2]
    rw [getD_append_lt hj]
    split
    · rfl
    · exact ih (by omega)

/-- A brace-scan step that brings the counter to zero stops at the current
index. -/
theorem braceScanGo_hit {lines : List Str} {j : Nat} {c : Int}
    (hz : c + (countChar '\x7d' (lines.getD j []) : Int)
        - (countChar '\x7b' (lines.getD j []) : Int) = 0) :
    Impl1.braceScanGo lines j c = some j := by
  cases j with
  | zero =>
    rw [Impl1.braceScanGo.eq_1]
    rw [if_pos hz]
  | succ j' =>
    rw [Impl1.braceScanGo.eq_2]
    simp only [Nat.succ_eq_add_one]
    rw [if_pos hz]

/-- A brace-scan step that leaves the counter nonzero recurses on the line
above with the updated counter. -/
theorem braceScanGo_pass {lines : List Str} {j' : Nat} {c : Int}
    (hnz : ¬(c + (countChar '\x7d' (lines.getD (j'+1) []) : Int)
        - (countChar '\x7b' (lines.getD (j'+1) []) : Int) = 0)) :
    Impl1.braceScanGo lines (j'+1) c
      = Impl1.braceScanGo lines j'
          (c + (countChar '\x7d' (lines.getD (j'+1) []) : Int)
            - (countChar '\x7b' (lines.getD (j'+1) []) : Int)) := by
  rw [Impl1.braceScanGo.eq_2]
  simp only [Nat.succ_eq_add_one]
  rw [if_neg hnz]

/-- The outer class scan also only reads lines at or below its index. -/
theorem classScanGo_frame {L M : List Str} : ∀ {fuel i : Nat}, i < L.length →
    Impl1.classScanGo (L ++ M) fuel i = Impl1.classScanGo L fuel i := by
  intro fuel
  induction fuel with
  | zero => intro i hi; rfl
  | succ f ih =>
    intro i hi
    cases i with
    | zero =>
      rw [Impl1.classScanGo.eq_2, Impl1.classScanGo.eq_2]
      rw [getD_append_lt hi]
      simp only [ite_self]
    | succ i' =>
      rw [Impl1.classScanGo.eq_3, Impl1.classScanGo.eq_3]
      simp only [Nat.succ_eq_add_one]
      rw [getD_append_lt hi, braceScanGo_frame (by omega)]
      cases hm : reFirst classMatchRE (L.getD (i'+1) []) with
      | some v => rfl
      | none =>
        dsimp only
        by_cases h1 : subList (str "\x7d") (L.getD (i'+1) []) = true
        · rw [if_pos h1]
          by_cases h2 : subList (str "\x7d;") (L.getD (i'+1) []) = true
          · rw [if_pos h2]
            cases hbs : Impl1.braceScanGo L i' 1 with
            | none =>
              dsimp only
              exact ih (by omega)
            | some j =>
              dsimp only
              cases j with
              | zero => rfl
              | succ j3 =>
                dsimp only
                have hj := braceScanGo_le hbs
                exact ih (by omega)
          · rw [if_neg h2]
            dsimp only
            exact ih (by omega)
        · rw [if_neg h1]
          dsimp only
          exact ih (by omega)

/-- One outer step over a benign line at index 0: the scan ends. -/
theorem classScanGo_benign_zeroIdx {lines : List Str} {f : Nat}
    (hm : reFirst classMatchRE (lines.getD 0 []) = none)
    (hnb : subList (str "\x7d") (lines.getD 0 []) = false) :
    Impl1.classScanGo lines (f+1) 0 = none := by
  rw [Impl1.classScanGo.eq_2]
  rw [hm]
  dsimp only
  rw [if_neg (show ¬(subList (str "\x7d") (lines.getD 0 []) = true) from by
    intro hc
    rw [hnb] at hc
    exact absurd hc (by decide))]

/-- One outer step over a benign line at a positive index: move one line up. -/
theorem classScanGo_benign_succ {lines : List Str} {f i' : Nat}
    (hm : reFirst classMatchRE (lines.getD (i'+1) []) = none)
    (hnb : subList (str "\x7d") (lines.getD (i'+1) []) = false) :
    Impl1.classScanGo lines (f+1) (i'+1) = Impl1.classScanGo lines f i' := by
  rw [Impl1.classScanGo.eq_3]
  simp only [Nat.succ_eq_add_one]
  rw [hm]
  dsimp only
  rw [if_neg (show ¬(subList (str "\x7d") (lines.getD (i'+1) []) = true) from by
    intro hc
    rw [hnb] at hc
    exact absurd hc (by decide))]

/-- One outer step over a scope-ending line whose brace scan lands on a
positive index: resume just above the matching opening line. -/
theorem classScanGo_skip_succ {lines : List Str} {f i' j3 : Nat}
    (hm : reFirst classMatchRE (lines.getD (i'+1) []) = none)
    (hs1 : subList (str "\x7d") (lines.getD (i'+1) []) = true)
    (hs2 : subList (str "\x7d;") (lines.getD (i'+1) []) = true)
    (hbs : Impl1.braceScanGo lines i' 1 = some (j3+1)) :
    Impl1.classScanGo lines (f+1) (i'+1) = Impl1.classScanGo lines f j3 := by
  rw [Impl1.classScanGo.eq_3]
  simp only [Nat.succ_eq_add_one]
  rw [hm]
  dsimp only
  rw [if_pos hs1, if_pos hs2]
  rw [hbs]

/-- One outer step over a scope-ending line whose brace scan lands on index
zero: the scan ends. -/
theorem classScanGo_skip_zero {lines : List Str} {f i' : Nat}
    (hm : reFirst classMatchRE (lines.getD (i'+1) []) = none)
    (hs1 : subList (str "\x7d") (lines.getD (i'+1) []) = true)
    (hs2 : subList (str "\x7d;") (lines.getD (i'+1) []) = true)
    (hbs : Impl1.braceScanGo lines i' 1 = some 0) :
    Impl1.classScanGo lines (f+1) (i'+1) = none := by
  rw [Impl1.classScanGo.eq_3]
  simp only [Nat.succ_eq_add_one]
  rw [hm]
  dsimp only
  rw [if_pos hs1, if_pos hs2]
  rw [hbs]

/-- Line lists over which the backward class scan of `part_001` passes
without reporting any class: built from benign lines (no class-pattern
match, no `\x7d`) and closed class blocks whose header line (net `+1`
brace) and `\x7d;` closing line sit on different lines with brace-free
body lines between them. -/
inductive ScanSafe : List Str → Prop where
  | nil : ScanSafe []
  | benign {L : List Str} {l : Str} (hS : ScanSafe L)
      (hm : reFirst classMatchRE l = none) (hb : ('\x7d' : Char) ∉ l) :
      ScanSafe (L ++ [l])
  | block {L : List Str} {hdr closer : Str} {body : List Str} (hS : ScanSafe L)
      (hhdr : countChar '\x7b' hdr = countChar '\x7d' hdr + 1)
      (hbody : ∀ l ∈ body, ('\x7b' : Char) ∉ l ∧ ('\x7d' : Char) ∉ l)
      (hcm : reFirst classMatchRE closer = none)
      (hcs : subList (str "\x7d;") closer = true) :
      ScanSafe (L ++ (hdr :: (body ++ [closer])))

/-- Resuming the scan below a safe prefix (after a benign line) yields
nothing. -/
theorem classScanGo_after_benign {L ext : List Str} {f : Nat}
    (hsafe : ∀ {f2 : Nat}, L.length ≤ f2 →
      Impl1.classScanGo L f2 (L.length - 1) = none)
    (hf : L.length ≤ f)
    (hm : reFirst classMatchRE ((L ++ ext).getD L.length []) = none)
    (hnb : subList (str "\x7d") ((L ++ ext).getD L.length []) = false) :
    Impl1.classScanGo (L ++ ext) (f+1) L.length = none := by
  cases L with
  | nil => exact classScanGo_benign_zeroIdx hm hnb
  | cons a L' =>
    have hm2 : reFirst classMatchRE (((a :: L') ++ ext).getD (L'.length + 1) [])
        = none := by simpa using hm
    have hnb2 : subList (str "\x7d") (((a :: L') ++ ext).getD (L'.length + 1) [])
        = false := by simpa using hnb
    rw [show ((a :: L' : List Str)).length = L'.length + 1 from by simp]
    rw [classScanGo_benign_succ hm2 hnb2]
    rw [classScanGo_frame (by simp)]
    simpa using hsafe (by simpa using hf)

/-- Resuming the scan below a safe prefix (after skipping a closed block
whose opening line is the first line of the suffix) yields nothing. -/
theorem classScanGo_after_skip {L ext : List Str} {f : Nat}
    (hsafe : ∀ {f2 : Nat}, L.length ≤ f2 →
      Impl1.classScanGo L f2 (L.length - 1) = none)
    (hf : L.length ≤ f) {i' : Nat}
    (hm : reFirst classMatchRE ((L ++ ext).getD (i'+1) []) = none)
    (hs1 : subList (str "\x7d") ((L ++ ext).getD (i'+1) []) = true)
    (hs2 : subList (str "\x7d;") ((L ++ ext).getD (i'+1) []) = true)
    (hbs : Impl1.braceScanGo (L ++ ext) i' 1 = some L.length) :
    Impl1.classScanGo (L ++ ext) (f+1) (i'+1) = none := by
  cases L with
  | nil => exact classScanGo_skip_zero hm hs1 hs2 hbs
  | cons a L' =>
    have hbs2 : Impl1.braceScanGo ((a :: L') ++ ext) i' 1
        = some (L'.length + 1) := by simpa using hbs
    rw [classScanGo_skip_succ hm hs1 hs2 hbs2]
    rw [classScanGo_frame (by simp)]
    simpa using hsafe (by simpa using hf)

/-- On a scan-safe line list the backward class scan reports nothing. -/
theorem classScanGo_safe {L : List Str} (hS : ScanSafe L) :
    ∀ {f : Nat}, L.length ≤ f → Impl1.classScanGo L f (L.length - 1) = none := by
  induction hS with
  | nil =>
    intro f hf
    cases f with
    | zero => rfl
    | succ f' =>
      show Impl1.classScanGo [] (f'+1) 0 = none
      exact classScanGo_benign_zeroIdx (by decide) (by decide)
  | @benign L l hS hm hb ih =>
    intro f hf
    cases f with
    | zero => simp at hf
    | succ f' =>
      have hidx : (L ++ [l]).length - 1 = L.length := by simp
      rw [hidx]
      have hline : (L ++ [l]).getD L.length [] = l := by
        have h0 := getD_append_idx (L := L) (M := [l]) 0
        rw [Nat.add_zero] at h0
        exact h0
      refine classScanGo_after_benign (fun {f2} h2 => ih h2) ?_ ?_ ?_
      · simp at hf
        omega
      · rw [hline]
        exact hm
      · rw [hline]
        exact subList_single_false hb
  | @block L hdr closer body hS hhdr hbody hcm hcs ih =>
    intro f hf
    cases f with
    | zero => simp at hf
    | succ f' =>
      have hidx : (L ++ (hdr :: (body ++ [closer]))).length - 1
          = (L.length + body.length) + 1 := by
        simp
        omega
      rw [hidx]
      have hcl : (L ++ (hdr :: (body ++ [closer]))).getD
          ((L.length + body.length) + 1) [] = closer := by
        rw [show (L.length + body.length) + 1 = L.length + (body.length + 1) from
          by omega]
        rw [getD_append_idx, List.getD_cons_succ]
        have h0 := getD_append_idx (L := body) (M := [closer]) 0
        rw [Nat.add_zero] at h0
        exact h0
      have hbrace : ∀ k, k ≤ body.length →
          Impl1.braceScanGo (L ++ (hdr :: (body ++ [closer]))) (L.length + k) 1
            = some L.length := by
        intro k
        induction k with
        | zero =>
          intro _
          have hline : (L ++ (hdr :: (body ++ [closer]))).getD (L.length + 0) []
              = hdr := by
            simpa using getD_append_idx (L := L) (M := hdr :: (body ++ [closer])) 0
          have hz : (1 : Int)
              + (countChar '\x7d' ((L ++ (hdr :: (body ++ [closer]))).getD
                  (L.length + 0) []) : Int)
              - (countChar '\x7b' ((L ++ (hdr :: (body ++ [closer]))).getD
                  (L.length + 0) []) : Int) = 0 := by
            rw [hline, hhdr]
            push_cast
            ring
          exact braceScanGo_hit hz
        | succ k' ihk =>
          intro hk
          have hline : (L ++ (hdr :: (body ++ [closer]))).getD
              ((L.length + k') + 1) [] = body.getD k' [] := by
            rw [show (L.length + k') + 1 = L.length + (k'+1) from by omega]
            rw [getD_append_idx, List.getD_cons_succ]
            exact getD_append_lt (by omega)
          have hbl : body.getD k' [] ∈ body := by
            have hlt : k' < body.length := by omega
            rw [List.getD_eq_getElem?_getD, List.getElem?_eq_getElem hlt]
            exact List.getElem_mem _
          obtain ⟨hno, hnc⟩ := hbody _ hbl
          have hzc : countChar '\x7d' (body.getD k' []) = 0 :=
            List.count_eq_zero.mpr hnc
          have hzo : countChar '\x7b' (body.getD k' []) = 0 :=
            List.count_eq_zero.mpr hno
          rw [show L.length + (k'+1) = (L.length + k') + 1 from by omega]
          rw [braceScanGo_pass (by rw [hline, hzc, hzo]; norm_num)]
          rw [hline, hzc, hzo]
          simp only [Nat.cast_zero, add_zero, sub_zero]
          exact ihk (by omega)
      refine classScanGo_after_skip (fun {f2} h2 => ih h2) ?_ ?_ ?_ ?_ ?_
      · simp at hf
        omega
      · rw [hcl]
        exact hcm
      · rw [hcl]
        exact subList_close_of_closeSemi hcs
      · rw [hcl]
        exact hcs
      · exact hbrace body.length (Nat.le_refl _)

/-- C9 counterexample: in a document whose only class declaration is closed
on its own line (`class A \x7b \x7d;` — equal numbers of opening and closing
braces, so its scope has ended before the prototype's line), the recognizer
still returns `className = some "A"`: the scan tests the class regex on each
line before any brace bookkeeping. -/
theorem claim9_counterexample :
    (Impl1.parseFunctionPrototype
        [str "class A \x7b \x7d;", [], str "void foo();"] 2 0).map
        (fun p => p.className) = some (some (str "A")) ∧
      countChar '\x7b' (str "class A \x7b \x7d;")
        = countChar '\x7d' (str "class A \x7b \x7d;") := by
  constructor
  · decide
  · decide

/-- C9 (amended): the closed-scope skipping works only line-wise. For every
document whose lines in the 100-line window before the prototype form a
scan-safe list — benign lines (no class/struct pattern match and no `\x7d`)
and closed class blocks whose header (net one opening brace) and `\x7d;`
closer are on different lines with brace-free lines between — the backward
class scan reports no class. A class closed on its declaration line itself
falls outside this family and is wrongly reported (see the
counterexample). -/
theorem claim9_closed_scopes_skipped :
    ∀ (doc : Doc) (pl pc : Nat), (∀ l ∈ doc, nlFree l) →
      ScanSafe ((doc.drop (pl - 100)).take (pl - (pl - 100)) ++
        [(doc.getD pl []).take pc]) →
      Impl1.extractClassNameFromContext doc pl pc = none := by
  intro doc pl pc hnl hS
  unfold Impl1.extractClassNameFromContext
  dsimp only
  have hW : splitOnChar '\n' (getTextUpTo doc (pl - 100) pl pc)
      = (doc.drop (pl - 100)).take (pl - (pl - 100)) ++
        [(doc.getD pl []).take pc] := by
    rw [getTextUpTo]
    refine splitOnChar_intercalate (by simp) ?_
    intro l hl
    rcases List.mem_append.mp hl with h | h
    · have hsub : List.Sublist ((doc.drop (pl - 100)).take (pl - (pl - 100))) doc :=
        (List.take_sublist _ _).trans (List.drop_sublist _ _)
      exact hnl l (hsub.subset h)
    · rw [List.mem_singleton] at h
      subst h
      intro hmem
      have hmem2 : '\n' ∈ doc.getD pl [] := (List.take_sublist _ _).subset hmem
      have hcases : doc.getD pl [] ∈ doc ∨ doc.getD pl [] = ([] : Str) := by
        rw [List.getD_eq_getElem?_getD]
        cases hq : doc[pl]? with
        | none => exact Or.inr rfl
        | some v => exact Or.inl (by simpa using List.getElem?_mem hq)
      rcases hcases with h2 | h2
      · exact hnl _ h2 hmem2
      · rw [h2] at hmem2
        simp at hmem2
  rw [hW]
  exact classScanGo_safe hS (Nat.le_refl _)

/-- C9 (amended) witness: a closed multi-line class above the prototype is
skipped and no class name is reported. -/
theorem claim9_witness :
    Impl1.extractClassNameFromContext
      [str "class A \x7b", str "int x;", str "\x7d;", [], str "void foo();"]
      4 0 = none := by
  refine claim9_closed_scopes_skipped _ 4 0 (by decide) ?_
  have h1 : ScanSafe ([] : List Str) := ScanSafe.nil
  have h2 := @ScanSafe.block [] (str "class A \x7b") (str "\x7d;")
    [str "int x;"] h1 (by decide) (by decide) (by decide) (by decide)
  have h3 := ScanSafe.benign (l := ([] : Str)) h2 (by decide) (by decide)
  have h4 := ScanSafe.benign (l := ([] : Str)) h3 (by decide) (by decide)
  exact h4

end CppHelper


